import Mathlib

/-!
Verification of the blue/green configuration mutation core of the
Streamlit PR-orchestrator repository (files `pv/app.py` and `pv/sample.py`).

The YAML configuration document is modelled as an association list of
string keys and values (`Val`), mirroring a Python `dict` loaded by
ruamel.yaml: keys are unique at each level, insertion order is preserved,
assignment to an existing key keeps its position, and assignment to a
fresh key appends at the end.  Python string helpers (`str.lower`,
`str.strip`, `str(...)`) are modelled on the character list underlying a
Lean `String` (`lower` is the ASCII lowering used by both Python for the
keys occurring here and by Lean's `Char.toLower`).

The GitHub REST client (`GH`) is modelled as an oracle structure of
fallible calls (`Except`), and the two orchestration functions record the
sequence of remote calls they issue, so that claims about which remote
calls happen can be stated and proved.
-/

namespace BG

/-- Values of a YAML document node: strings, integers, booleans or nested
mappings (association lists of key/value pairs, Python-dict style). -/
inductive Val where
  | str (s : String)
  | int (n : Int)
  | bool (b : Bool)
  | map (m : List (String × Val))

/-- Documents are root-level mappings. -/
abbrev Doc := List (String × Val)

mutual

def decEqVal : (a b : Val) → Decidable (a = b)
  | .str a, .str b =>
      match decEq a b with
      | isTrue h => isTrue (by rw [h])
      | isFalse h => isFalse (fun he => by cases he; exact h rfl)
  | .str _, .int _ => isFalse (fun h => Val.noConfusion h)
  | .str _, .bool _ => isFalse (fun h => Val.noConfusion h)
  | .str _, .map _ => isFalse (fun h => Val.noConfusion h)
  | .int _, .str _ => isFalse (fun h => Val.noConfusion h)
  | .int a, .int b =>
      match decEq a b with
      | isTrue h => isTrue (by rw [h])
      | isFalse h => isFalse (fun he => by cases he; exact h rfl)
  | .int _, .bool _ => isFalse (fun h => Val.noConfusion h)
  | .int _, .map _ => isFalse (fun h => Val.noConfusion h)
  | .bool _, .str _ => isFalse (fun h => Val.noConfusion h)
  | .bool _, .int _ => isFalse (fun h => Val.noConfusion h)
  | .bool a, .bool b =>
      match decEq a b with
      | isTrue h => isTrue (by rw [h])
      | isFalse h => isFalse (fun he => by cases he; exact h rfl)
  | .bool _, .map _ => isFalse (fun h => Val.noConfusion h)
  | .map _, .str _ => isFalse (fun h => Val.noConfusion h)
  | .map _, .int _ => isFalse (fun h => Val.noConfusion h)
  | .map _, .bool _ => isFalse (fun h => Val.noConfusion h)
  | .map a, .map b =>
      match decEqValList a b with
      | isTrue h => isTrue (by rw [h])
      | isFalse h => isFalse (fun he => by cases he; exact h rfl)

def decEqValList : (a b : List (String × Val)) → Decidable (a = b)
  | [], [] => isTrue rfl
  | [], _ :: _ => isFalse (fun h => List.noConfusion h)
  | _ :: _, [] => isFalse (fun h => List.noConfusion h)
  | (k1, v1) :: r1, (k2, v2) :: r2 =>
      match decEq k1 k2, decEqVal v1 v2, decEqValList r1 r2 with
      | isTrue h1, isTrue h2, isTrue h3 => isTrue (by rw [h1, h2, h3])
      | isFalse h1, _, _ => isFalse (fun he => by cases he; exact h1 rfl)
      | _, isFalse h2, _ => isFalse (fun he => by cases he; exact h2 rfl)
      | _, _, isFalse h3 => isFalse (fun he => by cases he; exact h3 rfl)

end

instance : DecidableEq Val := decEqVal

instance {ε α : Type} [DecidableEq ε] [DecidableEq α] : DecidableEq (Except ε α)
  | .ok a, .ok b =>
      match decEq a b with
      | isTrue h => isTrue (by rw [h])
      | isFalse h => isFalse (fun he => by cases he; exact h rfl)
  | .ok _, .error _ => isFalse (fun h => Except.noConfusion h)
  | .error _, .ok _ => isFalse (fun h => Except.noConfusion h)
  | .error a, .error b =>
      match decEq a b with
      | isTrue h => isTrue (by rw [h])
      | isFalse h => isFalse (fun he => by cases he; exact h rfl)

/-! Python string primitives, modelled on the underlying character list. -/

/-- Model of Python `str.lower()` (ASCII lowering, as `Char.toLower`). -/
def pyLower (s : String) : String := ⟨s.data.map Char.toLower⟩

/-- Whitespace test used by the model of Python `str.strip()`. -/
def isPySpace (c : Char) : Bool :=
  c.toNat == 32 || c.toNat == 9 || c.toNat == 10 || c.toNat == 13

/-- Strip whitespace from both ends of a character list. -/
def stripChars (l : List Char) : List Char :=
  ((l.dropWhile isPySpace).reverse.dropWhile isPySpace).reverse

/-- Model of Python `str.strip()`. -/
def pyStrip (s : String) : String := ⟨stripChars s.data⟩

/-- A single-quote character, used by the model of Python `repr`. -/
def pyQuote : String := (Char.ofNat 39).toString

mutual

/-- Model of Python `repr` for the values of `Val` (used by `str(...)`
on a dict). -/
def reprVal : Val → String
  | .str s => pyQuote ++ s ++ pyQuote
  | .int n => toString n
  | .bool b => if b then "True" else "False"
  | .map m => "\x7b" ++ reprEntries m ++ "\x7d"

def reprEntries : List (String × Val) → String
  | [] => ""
  | (k, v) :: rest =>
      pyQuote ++ k ++ pyQuote ++ ": " ++ reprVal v ++
        (if rest.isEmpty then "" else ", ") ++ reprEntries rest

end

/-- Model of Python `str(...)` applied to a `Val`. -/
def pyStr : Val → String
  | .str s => s
  | .int n => toString n
  | .bool b => if b then "True" else "False"
  | .map m => reprVal (.map m)

/-! Python dict primitives. -/

/-- Model of Python `d[k] = v`: overwrite the entry with exactly key `k`
in place if it exists, otherwise append a new entry at the end. -/
def pySet (d : List (String × Val)) (k : String) (v : Val) : List (String × Val) :=
  match d with
  | [] => [(k, v)]
  | (k2, w) :: rest => if k2 == k then (k2, v) :: rest else (k2, w) :: pySet rest k v

/-- Model of the lookup `_lower_keys(d).get(key)` from `pv/app.py` /
`pv/sample.py`: `_lower_keys` builds `{str(k).lower(): v for k, v in
d.items()}`, so for duplicate lowered keys the LAST value wins. `key` is
expected in lowered form, as at every call site of `_lower_keys`. -/
def lkGet : List (String × Val) → String → Option Val
  | [], _ => none
  | (k, v) :: rest, key =>
      match lkGet rest key with
      | some w => some w
      | none => if pyLower k == key then some v else none

/-- Family variant of `lkGet`: last entry whose lowered key is any member
of `lopts` (used to observe a field that tolerates alternate spellings). -/
def lkGetF : List (String × Val) → List String → Option Val
  | [], _ => none
  | (k, v) :: rest, lopts =>
      match lkGetF rest lopts with
      | some w => some w
      | none => if lopts.contains (pyLower k) then some v else none

/-- First part of `_set_key_case_insensitive` from `pv/app.py`: scan the
entries in order and overwrite the FIRST one whose lowered key belongs to
`lopts`; `none` if no entry matches. -/
def setKeyFirstMatch : List (String × Val) → List String → Val → Option (List (String × Val))
  | [], _, _ => none
  | (k, w) :: rest, lopts, v =>
      if lopts.contains (pyLower k) then some ((k, v) :: rest)
      else (setKeyFirstMatch rest lopts v).map (fun d2 => (k, w) :: d2)

/-- Model of `_set_key_case_insensitive(d, key_options, value)` from
`pv/app.py`: write to the first existing key matching any option
case-insensitively; if none exists, create the first preferred key. -/
def set_key_ci (d : List (String × Val)) (opts : List String) (v : Val) : List (String × Val) :=
  match setKeyFirstMatch d (opts.map pyLower) v with
  | some d2 => d2
  | none => pySet d (opts.headD "") v

/-! Functions from `pv/app.py` (the newer variant). -/

/-- Outcome of the value found when a string was required: models a
Python call raising (`.strip()` on a non-string raises AttributeError). -/
def asStrField (v : Val) : Except Unit String :=
  match v with
  | .str s => .ok (pyLower (pyStrip s))
  | _ => .error ()

/-- The `activeslot` value of a section value, provided the section is a
dict carrying that field (case-insensitively); mirrors the guard
`isinstance(blue, dict) and "activeslot" in _lower_keys(blue)`. -/
def sectionSlotVal (v : Val) : Option Val :=
  match v with
  | .map m => lkGet m "activeslot"
  | _ => none

/-- Model of `detect_active_slot(doc)` from `pv/app.py` (identical in
`pv/sample.py`). Returns `.error ()` when Python would raise (a
section-level `activeslot` value that is not a string). -/
def detect_active_slot (doc : Doc) : Except Unit String :=
  let blue := (lkGet doc "blue").getD (.map [])
  let green := (lkGet doc "green").getD (.map [])
  match sectionSlotVal blue with
  | some v => asStrField v
  | none =>
    match sectionSlotVal green with
    | some v => asStrField v
    | none =>
      match lkGet doc "activeslot" with
      | some v => .ok (pyLower (pyStrip (pyStr v)))
      | none => .ok "blue"

/-- Entry-level action of mutating the section stored under exactly key
`sec`: touched only when the entry has exactly that key and a dict value. -/
def updEntry (p : String × Val) (sec : String) (g : List (String × Val) → List (String × Val)) :
    String × Val :=
  match p with
  | (k, Val.map m) => if k == sec then (k, Val.map (g m)) else (k, Val.map m)
  | p => p

/-- Apply `g` to the section stored under exactly key `sec`, when present
and a dict; models `if section_name in doc and isinstance(doc[section_name], dict)`. -/
def updSection (d : Doc) (sec : String) (g : List (String × Val) → List (String × Val)) : Doc :=
  d.map (fun p => updEntry p sec g)

/-- The four physical section spellings iterated over by the source. -/
def fourNames : List String := ["blue", "green", "Blue", "Green"]

/-- Section-level write of the first loop of `set_active_slot_both` from
`pv/app.py`: `_set_key_case_insensitive(doc[sec], ["activeslot", "ActiveSlot"], slot)`. -/
def actWrite (slot : String) : List (String × Val) → List (String × Val) :=
  fun m => set_key_ci m ["activeslot", "ActiveSlot"] (.str slot)

/-- Section-level write of the second loop of `set_active_slot_both` from
`pv/app.py`: enforce weights (active 100/0, standby 0/100). -/
def weightWrite (slot sec : String) : List (String × Val) → List (String × Val) :=
  fun m =>
    let is_active := pyLower sec == pyLower slot
    let m1 := set_key_ci m ["Weight", "weight"] (.int (if is_active then 100 else 0))
    set_key_ci m1 ["Standbyweight", "standbyweight", "Standybyweight", "standybyweight"]
      (.int (if is_active then 0 else 100))

/-- First loop of `set_active_slot_both` from `pv/app.py`: set the
`activeslot` field of both sections (case-insensitive write). -/
def writeActiveslot (doc : Doc) (slot : String) : Doc :=
  fourNames.foldl (fun d sec => updSection d sec (actWrite slot)) doc

/-- Second loop of `set_active_slot_both` from `pv/app.py`. -/
def setWeights (doc : Doc) (slot : String) : Doc :=
  fourNames.foldl (fun d sec => updSection d sec (weightWrite slot sec)) doc

/-- Model of `set_active_slot_both(doc, slot)` from `pv/app.py`. -/
def set_active_slot_both (doc : Doc) (slot : String) : Doc :=
  setWeights (writeActiveslot doc slot) slot

/-- Key test for the targeted version keys of `update_version` in
`pv/app.py` (tolerates the underscore-free alternate spelling). -/
def versionKeyMatches (slot : String) (k : String) : Bool :=
  (slot == "blue" && (pyLower k == "appversion_blue" || pyLower k == "appversionblue")) ||
  (slot == "green" && (pyLower k == "appversion_green" || pyLower k == "appversiongreen"))

/-- Model of `update_version(doc, slot, new_version)` from `pv/app.py`:
overwrite every matching key; if none matched, assign the canonical
capitalized key for `slot == "blue"`, else `Appversion_green`. -/
def update_version (doc : Doc) (slot : String) (new_version : String) : Doc :=
  let doc2 := doc.map (fun p =>
    if versionKeyMatches slot p.1 then (p.1, Val.str new_version) else p)
  if doc.any (fun p => versionKeyMatches slot p.1) then doc2
  else if slot == "blue" then pySet doc2 "Appversion_blue" (.str new_version)
  else pySet doc2 "Appversion_green" (.str new_version)

/-- Observation helper: the mapping stored under exactly key `k`, when
present and a dict. -/
def lookupSection (doc : Doc) (k : String) : Option (List (String × Val)) :=
  match List.lookup k doc with
  | some (.map m) => some m
  | _ => none

/-- Model of `standby_slot(active)` (identical in both variants). -/
def standby_slot (active : String) : String :=
  if active == "blue" then "green" else "blue"

/-- Section-level write of `turn_off_standby_switch` for a blue standby. -/
def blueSwitchOff : List (String × Val) → List (String × Val) :=
  fun m => set_key_ci m ["blueswitch", "BlueSwitch"] (.str "off")

/-- Section-level write of `turn_off_standby_switch` for a green standby. -/
def greenSwitchOff : List (String × Val) → List (String × Val) :=
  fun m => set_key_ci m ["greenswitch", "GreenSwitch"] (.str "off")

/-- Model of `turn_off_standby_switch(doc, standby)` from `pv/app.py`. -/
def turn_off_standby_switch (doc : Doc) (standby : String) : Doc :=
  let d1 :=
    if standby == "blue" then
      ["blue", "Blue"].foldl (fun d sec => updSection d sec blueSwitchOff) doc
    else doc
  if standby == "green" then
    ["green", "Green"].foldl (fun d sec => updSection d sec greenSwitchOff) d1
  else d1

/-- One auto-flip document mutation as performed by `propose_auto_flip`
in `pv/app.py` (without the optional switch step): detect the active
slot, compute the standby target, write it into both sections and enforce
the weights. `.error ()` when `detect_active_slot` raises. -/
def flipActive (doc : Doc) : Except Unit Doc :=
  match detect_active_slot doc with
  | .error e => .error e
  | .ok active => .ok (set_active_slot_both doc (standby_slot active))

/-! Functions from `pv/sample.py` (the older variant) where they differ. -/

/-- Key test of `update_version` in `pv/sample.py`: only the underscore
spellings are recognized. -/
def sampleVersionKeyMatches (slot : String) (k : String) : Bool :=
  (slot == "blue" && pyLower k == "appversion_blue") ||
  (slot == "green" && pyLower k == "appversion_green")

/-- Model of `update_version(doc, slot, new_version)` from `pv/sample.py`. -/
def sample_update_version (doc : Doc) (slot : String) (new_version : String) : Doc :=
  let doc2 := doc.map (fun p =>
    if sampleVersionKeyMatches slot p.1 then (p.1, Val.str new_version) else p)
  if doc.any (fun p => sampleVersionKeyMatches slot p.1) then doc2
  else if slot == "blue" then pySet doc2 "Appversion_blue" (.str new_version)
  else pySet doc2 "Appversion_green" (.str new_version)

/-- Section-level write of `set_active_slot_both` from `pv/sample.py`:
plain `doc[section]["activeslot"] = slot`. -/
def sampleActWrite (slot : String) : List (String × Val) → List (String × Val) :=
  fun m => pySet m "activeslot" (.str slot)

/-- Model of `set_active_slot_both(doc, slot)` from `pv/sample.py`: only
assigns `doc[section]["activeslot"] = slot` for each present section. -/
def sample_set_active_slot_both (doc : Doc) (slot : String) : Doc :=
  fourNames.foldl (fun d sec => updSection d sec (sampleActWrite slot)) doc

/-! Orchestration layer of `pv/app.py`: the GitHub client `GH` is an
oracle of fallible remote calls, and each orchestration records the
sequence of remote calls it issues. -/

/-- A remote call issued through the `GH` client. -/
inductive GHCall where
  | createBranch (owner repo newBranch fromBranch : String)
  | getFile (owner repo path ref : String)
  | updateFile (owner repo path message : String) (content : Doc) (branch sha : String)
  | createPR (owner repo head base title body : String)

/-- Handle of a created pull request (url and title, as used by the UI). -/
structure PRHandle where
  url : String
  prTitle : String
  deriving DecidableEq

/-- Errors of an orchestration run: an error raised by a store call
(`GH._req` raises `RuntimeError` on status >= 400), or a Python
exception raised by the document mutation itself. -/
inductive OrchErr where
  | store (e : String)
  | exn
  deriving DecidableEq

/-- Oracle for the remote endpoints consumed by the orchestrations. -/
structure GHOracle where
  createBranchR : String → String → String → String → Except String Unit
  getFileR : String → String → String → String → Except String (Doc × String)
  updateFileR : String → String → String → String → Doc → String → String → Except String Unit
  createPRR : String → String → String → String → String → String → Except String PRHandle

/-- Model of `build_branch_name(app, env_label, action)`; the UTC
timestamp produced by `_now_slug()` is passed in explicitly as `now`. -/
def build_branch_name (app env_label action now : String) : String :=
  "feat/" ++ (app.replace "/" "-") ++ "-" ++ env_label ++ "-" ++ action ++ "-" ++ now

/-- Model of `pr_title(app, env_label, action, version)`. -/
def pr_title (app env_label action : String) (version : Option String) : String :=
  match version with
  | some v => app ++ " [" ++ env_label ++ "] " ++ action ++ ": " ++ v
  | none => app ++ " [" ++ env_label ++ "] " ++ action

/-- Model of `propose_version_update` from `pv/app.py`: create branch,
read document, bump the targeted version, write back conditioned on the
sha, open a PR. Returns the issued remote calls and the result. -/
def propose_version_update (gh : GHOracle)
    (owner repo base_branch yaml_path app_label env_label target_slot new_version now : String) :
    List GHCall × Except OrchErr (String × PRHandle) :=
  let branch_name := build_branch_name app_label env_label
    ("update-" ++ target_slot ++ "-version") now
  let t1 := [GHCall.createBranch owner repo branch_name base_branch]
  match gh.createBranchR owner repo branch_name base_branch with
  | .error e => (t1, .error (.store e))
  | .ok _ =>
    let t2 := t1 ++ [GHCall.getFile owner repo yaml_path base_branch]
    match gh.getFileR owner repo yaml_path base_branch with
    | .error e => (t2, .error (.store e))
    | .ok (doc, sha) =>
      let doc2 := update_version doc target_slot new_version
      let commit_msg := "chore(" ++ app_label ++ "): bump " ++ target_slot ++
        " version to " ++ new_version ++ " [" ++ env_label ++ "]"
      let t3 := t2 ++ [GHCall.updateFile owner repo yaml_path commit_msg doc2 branch_name sha]
      match gh.updateFileR owner repo yaml_path commit_msg doc2 branch_name sha with
      | .error e => (t3, .error (.store e))
      | .ok _ =>
        let title := pr_title app_label env_label
          ("Update " ++ target_slot ++ " version") (some new_version)
        let body := "Automated PR via Streamlit app.\\n\\n**App:** " ++ app_label ++
          "\\n\\n**Env:** " ++ env_label ++ "\\n\\n**Target slot:** " ++ target_slot ++
          "\\n\\n**New version:** " ++ new_version ++ "\\n"
        let t4 := t3 ++ [GHCall.createPR owner repo branch_name base_branch title body]
        match gh.createPRR owner repo branch_name base_branch title body with
        | .error e => (t4, .error (.store e))
        | .ok pr => (t4, .ok (branch_name, pr))

/-- Model of `propose_auto_flip` from `pv/app.py`: create branch, read
document, flip the active slot (optionally turning the standby switch
off), write back conditioned on the sha, open a PR. -/
def propose_auto_flip (gh : GHOracle)
    (owner repo base_branch yaml_path app_label env_label : String)
    (turn_off_switch : Bool) (now : String) :
    List GHCall × Except OrchErr (String × PRHandle × String) :=
  let branch_name := build_branch_name app_label env_label "auto-flip" now
  let t1 := [GHCall.createBranch owner repo branch_name base_branch]
  match gh.createBranchR owner repo branch_name base_branch with
  | .error e => (t1, .error (.store e))
  | .ok _ =>
    let t2 := t1 ++ [GHCall.getFile owner repo yaml_path base_branch]
    match gh.getFileR owner repo yaml_path base_branch with
    | .error e => (t2, .error (.store e))
    | .ok (doc, sha) =>
      match detect_active_slot doc with
      | .error _ => (t2, .error .exn)
      | .ok active =>
        let target := standby_slot active
        let doc2 := set_active_slot_both doc target
        let doc3 := if turn_off_switch
          then turn_off_standby_switch doc2 (standby_slot target) else doc2
        let commit_msg := "feat(" ++ app_label ++ "): auto-flip active slot to " ++
          target ++ " [" ++ env_label ++ "]"
        let t3 := t2 ++ [GHCall.updateFile owner repo yaml_path commit_msg doc3 branch_name sha]
        match gh.updateFileR owner repo yaml_path commit_msg doc3 branch_name sha with
        | .error e => (t3, .error (.store e))
        | .ok _ =>
          let title := pr_title app_label env_label ("Auto flip to " ++ target) none
          let body := "Automated PR to flip activeslot and adjust weights.\\n\\n**App:** " ++
            app_label ++ "\\n\\n**Env:** " ++ env_label ++ "\\n\\n**New active slot:** " ++
            target ++ "\\n" ++ (if turn_off_switch then "Standby switch turned OFF.\\n" else "")
          let t4 := t3 ++ [GHCall.createPR owner repo branch_name base_branch title body]
          match gh.createPRR owner repo branch_name base_branch title body with
          | .error e => (t4, .error (.store e))
          | .ok pr => (t4, .ok (branch_name, pr, target))

/-- Does a call create a pull request? -/
def isCreatePR : GHCall → Bool
  | .createPR _ _ _ _ _ _ => true
  | _ => false

/-- No call of the trace creates a pull request. -/
def noCreatePR (t : List GHCall) : Bool := t.all (fun c => !(isCreatePR c))

/-! Helper lemmas about the dict primitives. -/

/-- Does the key match one of the options case-insensitively?  This is
exactly the membership test of `set_key_ci`. -/
def matchOpts (opts : List String) (k : String) : Bool :=
  (opts.map pyLower).contains (pyLower k)

/-- First exact-key read of an association list (Python `d[k]` on a dict
with unique keys). -/
def getExact : List (String × Val) → String → Option Val
  | [], _ => none
  | (k2, v) :: rest, k => if k2 == k then some v else getExact rest k

theorem getExact_cons (q : String × Val) (rest : List (String × Val)) (k : String) :
    getExact (q :: rest) k = if q.1 == k then some q.2 else getExact rest k := by
  cases q; rfl

theorem pySet_cons (q : String × Val) (rest : List (String × Val)) (k : String) (v : Val) :
    pySet (q :: rest) k v =
      if q.1 == k then (q.1, v) :: rest else q :: pySet rest k v := by
  cases q; rfl

theorem lkGet_cons (q : String × Val) (rest : List (String × Val)) (key : String) :
    lkGet (q :: rest) key =
      match lkGet rest key with
      | some w => some w
      | none => if pyLower q.1 == key then some q.2 else none := by
  cases q; rfl

theorem lkGetF_cons (q : String × Val) (rest : List (String × Val)) (lopts : List String) :
    lkGetF (q :: rest) lopts =
      match lkGetF rest lopts with
      | some w => some w
      | none => if lopts.contains (pyLower q.1) then some q.2 else none := by
  cases q; rfl

theorem setKeyFirstMatch_cons (q : String × Val) (rest : List (String × Val))
    (lopts : List String) (v : Val) :
    setKeyFirstMatch (q :: rest) lopts v =
      if lopts.contains (pyLower q.1) then some ((q.1, v) :: rest)
      else (setKeyFirstMatch rest lopts v).map (fun d2 => q :: d2) := by
  cases q; rfl

theorem map_id_of_mem {α : Type} (l : List α) (f : α → α) (h : ∀ p ∈ l, f p = p) :
    l.map f = l := by
  induction l with
  | nil => rfl
  | cons p r ih =>
    rw [List.map_cons, h p (List.mem_cons_self p r),
      ih (fun q hq => h q (List.mem_cons_of_mem p hq))]

theorem getExact_map (g : String × Val → String × Val)
    (hg : ∀ p, (g p).1 = p.1) (l : List (String × Val)) (k : String) :
    getExact (l.map g) k = (getExact l k).map (fun v => (g (k, v)).2) := by
  induction l with
  | nil => rfl
  | cons p r ih =>
    rw [List.map_cons, getExact_cons, getExact_cons, hg p]
    cases hbk : p.1 == k with
    | false => simpa using ih
    | true =>
      have hk : p.1 = k := eq_of_beq hbk
      simp only [Option.map_some]
      subst hk
      rfl

theorem pySet_of_not_mem (d : List (String × Val)) (k : String) (v : Val)
    (h : ∀ p ∈ d, (p.1 == k) = false) : pySet d k v = d ++ [(k, v)] := by
  induction d with
  | nil => rfl
  | cons p r ih =>
    rw [pySet_cons, if_neg (by simp [h p (List.mem_cons_self p r)]),
      ih (fun q hq => h q (List.mem_cons_of_mem p hq))]
    rfl

theorem pySet_filter_ne (d : List (String × Val)) (k : String) (v : Val) :
    (pySet d k v).filter (fun p => p.1 != k) = d.filter (fun p => p.1 != k) := by
  induction d with
  | nil => simp [pySet, List.filter]
  | cons p r ih =>
    rw [pySet_cons]
    cases hbk : p.1 == k with
    | false =>
      rw [if_neg (by simp [hbk]), List.filter_cons, List.filter_cons, ih]
    | true =>
      rw [if_pos rfl, List.filter_cons, List.filter_cons]
      simp [bne, hbk]

theorem matchOpts_def (opts : List String) (k : String) :
    matchOpts opts k = (opts.map pyLower).contains (pyLower k) := rfl

theorem sfm_of_all_false (m : List (String × Val)) (opts : List String) (v : Val)
    (h : ∀ p ∈ m, matchOpts opts p.1 = false) :
    setKeyFirstMatch m (opts.map pyLower) v = none := by
  induction m with
  | nil => rfl
  | cons p r ih =>
    rw [setKeyFirstMatch_cons,
      if_neg (by rw [← matchOpts_def, h p (List.mem_cons_self p r)]; simp),
      ih (fun q hq => h q (List.mem_cons_of_mem p hq))]
    rfl

theorem sfm_none_all_false (m : List (String × Val)) (opts : List String) (v : Val)
    (h : setKeyFirstMatch m (opts.map pyLower) v = none) :
    ∀ p ∈ m, matchOpts opts p.1 = false := by
  induction m with
  | nil => intro p hp; cases hp
  | cons p r ih =>
    rw [setKeyFirstMatch_cons] at h
    intro q hq
    cases hc : matchOpts opts q.1 with
    | false => rfl
    | true =>
      exfalso
      rcases List.mem_cons.mp hq with h1 | h2
      · rw [h1] at hc
        rw [← matchOpts_def, hc, if_pos rfl] at h
        exact Option.noConfusion h
      · cases hc2 : (opts.map pyLower).contains (pyLower p.1) with
        | true => rw [if_pos hc2] at h; exact Option.noConfusion h
        | false =>
          rw [if_neg (by rw [hc2]; simp)] at h
          cases hs : setKeyFirstMatch r (opts.map pyLower) v with
          | none =>
            have := ih hs q h2
            rw [hc] at this
            exact Bool.noConfusion this
          | some d2 => rw [hs] at h; simp at h

theorem matchOpts_head (opts : List String) (hne : opts ≠ []) :
    matchOpts opts (opts.headD "") = true := by
  cases opts with
  | nil => exact absurd rfl hne
  | cons o r => simp [matchOpts, List.contains_cons]

theorem set_key_ci_of_all_false (m : List (String × Val)) (opts : List String) (v : Val)
    (hne : opts ≠ []) (h : ∀ p ∈ m, matchOpts opts p.1 = false) :
    set_key_ci m opts v = m ++ [(opts.headD "", v)] := by
  rw [set_key_ci, sfm_of_all_false m opts v h]
  apply pySet_of_not_mem
  intro p hp
  cases hbk : p.1 == opts.headD "" with
  | false => rfl
  | true =>
    have hk : p.1 = opts.headD "" := eq_of_beq hbk
    have hm : matchOpts opts p.1 = true := by rw [hk]; exact matchOpts_head opts hne
    rw [h p hp] at hm
    exact Bool.noConfusion hm

theorem set_key_ci_of_count_zero (m : List (String × Val)) (opts : List String) (v : Val)
    (hne : opts ≠ []) (h : m.countP (fun p => matchOpts opts p.1) = 0) :
    set_key_ci m opts v = m ++ [(opts.headD "", v)] := by
  apply set_key_ci_of_all_false m opts v hne
  intro p hp
  have := List.countP_eq_zero.mp h p hp
  simpa using this

theorem sfm_of_count_one (m : List (String × Val)) (opts : List String) (v : Val)
    (h : m.countP (fun p => matchOpts opts p.1) = 1) :
    setKeyFirstMatch m (opts.map pyLower) v =
      some (m.map (fun p => if matchOpts opts p.1 then (p.1, v) else p)) := by
  induction m with
  | nil => simp at h
  | cons p r ih =>
    rw [List.countP_cons] at h
    rw [setKeyFirstMatch_cons, List.map_cons]
    cases hm : matchOpts opts p.1 with
    | true =>
      have hr : r.countP (fun p => matchOpts opts p.1) = 0 := by
        rw [hm] at h; simpa using h
      have hid : r.map (fun p => if matchOpts opts p.1 then (p.1, v) else p) = r := by
        apply map_id_of_mem
        intro q hq
        have hq0 := List.countP_eq_zero.mp hr q hq
        simp only [Bool.not_eq_true] at hq0
        simp [hq0]
      rw [if_pos (by rw [← matchOpts_def]; exact hm), if_pos rfl, hid]
    | false =>
      have hr : r.countP (fun p => matchOpts opts p.1) = 1 := by
        rw [hm] at h; simpa using h
      rw [if_neg (by rw [← matchOpts_def, hm]; simp), ih hr]
      simp

theorem set_key_ci_of_count_one (m : List (String × Val)) (opts : List String) (v : Val)
    (h : m.countP (fun p => matchOpts opts p.1) = 1) :
    set_key_ci m opts v =
      m.map (fun p => if matchOpts opts p.1 then (p.1, v) else p) := by
  rw [set_key_ci, sfm_of_count_one m opts v h]

theorem sfm_self (m d2 : List (String × Val)) (lopts : List String) (v : Val)
    (h : setKeyFirstMatch m lopts v = some d2) :
    setKeyFirstMatch d2 lopts v = some d2 := by
  induction m generalizing d2 with
  | nil => simp [setKeyFirstMatch] at h
  | cons p r ih =>
    rw [setKeyFirstMatch_cons] at h
    cases hc : lopts.contains (pyLower p.1) with
    | true =>
      rw [if_pos hc] at h
      cases h
      rw [setKeyFirstMatch_cons,
        if_pos (show lopts.contains (pyLower ((p.1, v) : String × Val).1) = true from hc)]
    | false =>
      rw [if_neg (by rw [hc]; simp)] at h
      cases hsfm : setKeyFirstMatch r lopts v with
      | none =>
        rw [hsfm] at h
        exact Option.noConfusion h
      | some r2 =>
        rw [hsfm] at h
        have h2 : some (p :: r2) = some d2 := h
        cases h2
        rw [setKeyFirstMatch_cons, if_neg (by rw [hc]; simp), ih r2 hsfm]
        rfl

theorem sfm_append_none (m l2 : List (String × Val)) (lopts : List String) (v : Val)
    (h : setKeyFirstMatch m lopts v = none) :
    setKeyFirstMatch (m ++ l2) lopts v = (setKeyFirstMatch l2 lopts v).map (fun d2 => m ++ d2) := by
  induction m with
  | nil => simp
  | cons p r ih =>
    rw [setKeyFirstMatch_cons] at h
    cases hc : lopts.contains (pyLower p.1) with
    | true => rw [if_pos hc] at h; exact Option.noConfusion h
    | false =>
      rw [if_neg (by rw [hc]; simp)] at h
      have hr : setKeyFirstMatch r lopts v = none := by
        cases hsfm : setKeyFirstMatch r lopts v with
        | none => rfl
        | some r2 =>
          rw [hsfm] at h
          exact Option.noConfusion h
      rw [List.cons_append, setKeyFirstMatch_cons, if_neg (by rw [hc]; simp), ih hr]
      cases setKeyFirstMatch l2 lopts v <;> rfl

theorem set_key_ci_idem (m : List (String × Val)) (opts : List String) (v : Val)
    (hne : opts ≠ []) :
    set_key_ci (set_key_ci m opts v) opts v = set_key_ci m opts v := by
  cases hsfm : setKeyFirstMatch m (opts.map pyLower) v with
  | some d2 =>
    have h1 : set_key_ci m opts v = d2 := by rw [set_key_ci, hsfm]
    rw [h1, set_key_ci, sfm_self m d2 (opts.map pyLower) v hsfm]
  | none =>
    have hall := sfm_none_all_false m opts v hsfm
    have h1 : set_key_ci m opts v = m ++ [(opts.headD "", v)] :=
      set_key_ci_of_all_false m opts v hne hall
    have hm1 : setKeyFirstMatch [((opts.headD ""), v)] (opts.map pyLower) v =
        some [((opts.headD ""), v)] := by
      rw [setKeyFirstMatch_cons]
      have hmh := matchOpts_head opts hne
      rw [matchOpts_def] at hmh
      rw [if_pos hmh]
    rw [h1, set_key_ci, sfm_append_none m _ _ _ hsfm, hm1]
    rfl

theorem lkGetF_append (m1 m2 : List (String × Val)) (lopts : List String) :
    lkGetF (m1 ++ m2) lopts =
      match lkGetF m2 lopts with
      | some w => some w
      | none => lkGetF m1 lopts := by
  induction m1 with
  | nil =>
    rw [List.nil_append]
    cases lkGetF m2 lopts <;> rfl
  | cons p r ih =>
    rw [List.cons_append, lkGetF_cons, ih, lkGetF_cons]
    cases lkGetF m2 lopts with
    | some w => rfl
    | none => cases lkGetF r lopts <;> rfl

theorem lkGetF_of_all_false (m : List (String × Val)) (lopts : List String)
    (h : ∀ p ∈ m, lopts.contains (pyLower p.1) = false) :
    lkGetF m lopts = none := by
  induction m with
  | nil => rfl
  | cons p r ih =>
    rw [lkGetF_cons, ih (fun q hq => h q (List.mem_cons_of_mem p hq)),
      h p (List.mem_cons_self p r)]
    rfl

theorem lkGetF_map_write (m : List (String × Val)) (opts : List String) (v : Val)
    (h : m.countP (fun p => matchOpts opts p.1) = 1) :
    lkGetF (m.map (fun p => if matchOpts opts p.1 then (p.1, v) else p)) (opts.map pyLower) =
      some v := by
  induction m with
  | nil => simp at h
  | cons p r ih =>
    rw [List.countP_cons] at h
    rw [List.map_cons]
    cases hm : matchOpts opts p.1 with
    | true =>
      have hr : r.countP (fun p => matchOpts opts p.1) = 0 := by
        rw [hm] at h; simpa using h
      have hid : r.map (fun p => if matchOpts opts p.1 then (p.1, v) else p) = r := by
        apply map_id_of_mem
        intro q hq
        have hq0 := List.countP_eq_zero.mp hr q hq
        simp only [Bool.not_eq_true] at hq0
        simp [hq0]
      rw [if_pos rfl, hid, lkGetF_cons,
        lkGetF_of_all_false r (opts.map pyLower)
          (fun q hq => by
            have hq0 := List.countP_eq_zero.mp hr q hq
            simp only [Bool.not_eq_true] at hq0
            rw [← matchOpts_def]
            exact hq0)]
      rw [← matchOpts_def]
      simp [hm]
    | false =>
      have hr : r.countP (fun p => matchOpts opts p.1) = 1 := by
        rw [hm] at h; simpa using h
      rw [if_neg (by simp), lkGetF_cons, ih hr]

theorem lkGetF_set_read (m : List (String × Val)) (opts : List String) (v : Val)
    (hne : opts ≠ []) (hc : m.countP (fun p => matchOpts opts p.1) ≤ 1) :
    lkGetF (set_key_ci m opts v) (opts.map pyLower) = some v := by
  rcases Nat.le_one_iff_eq_zero_or_eq_one.mp hc with h0 | h1
  · rw [set_key_ci_of_count_zero m opts v hne h0, lkGetF_append]
    have hmh := matchOpts_head opts hne
    rw [matchOpts_def] at hmh
    have hm1 : lkGetF [((opts.headD ""), v)] (opts.map pyLower) = some v := by
      have hr : lkGetF ([((opts.headD ""), v)] : List (String × Val)) (opts.map pyLower) =
          if (opts.map pyLower).contains (pyLower (opts.headD "")) then some v else none := rfl
      rw [hr, if_pos hmh]
    rw [hm1]
  · rw [set_key_ci_of_count_one m opts v h1]
    exact lkGetF_map_write m opts v h1

theorem lkGetF_set_frame (m : List (String × Val)) (opts2 : List String) (v : Val)
    (lopts1 : List String) (hne : opts2 ≠ [])
    (hdisj : ∀ s, (opts2.map pyLower).contains s = true → lopts1.contains s = false) :
    lkGetF (set_key_ci m opts2 v) lopts1 = lkGetF m lopts1 := by
  cases hsfm : setKeyFirstMatch m (opts2.map pyLower) v with
  | some d2 =>
    have h1 : set_key_ci m opts2 v = d2 := by rw [set_key_ci, hsfm]
    rw [h1]
    clear h1
    induction m generalizing d2 with
    | nil => cases hsfm
    | cons p r ih =>
      rw [setKeyFirstMatch_cons] at hsfm
      cases hc : (opts2.map pyLower).contains (pyLower p.1) with
      | true =>
        rw [if_pos hc] at hsfm
        cases hsfm
        rw [lkGetF_cons, lkGetF_cons]
        have hl1 : lopts1.contains (pyLower p.1) = false := hdisj (pyLower p.1) hc
        cases lkGetF r lopts1 with
        | some w => rfl
        | none => simp only [hl1]; rfl
      | false =>
        rw [if_neg (by rw [hc]; simp)] at hsfm
        cases hs : setKeyFirstMatch r (opts2.map pyLower) v with
        | none =>
          rw [hs] at hsfm
          exact Option.noConfusion hsfm
        | some r2 =>
          rw [hs] at hsfm
          have h2 : some (p :: r2) = some d2 := hsfm
          cases h2
          rw [lkGetF_cons, lkGetF_cons, ih r2 hs]
  | none =>
    have hall := sfm_none_all_false m opts2 v hsfm
    rw [set_key_ci_of_all_false m opts2 v hne hall, lkGetF_append]
    have hmh := matchOpts_head opts2 hne
    rw [matchOpts_def] at hmh
    have hl1 : lopts1.contains (pyLower (opts2.headD "")) = false :=
      hdisj (pyLower (opts2.headD "")) hmh
    have hund : lkGetF [((opts2.headD ""), v)] lopts1 = none := by
      rw [lkGetF_cons]
      simp only [hl1]
      rfl
    rw [hund]

theorem countP_set_key_ci_frame (m : List (String × Val)) (opts : List String) (v : Val)
    (q : String → Bool) (hne : opts ≠ [])
    (hq : ∀ k, matchOpts opts k = true → q k = false) :
    (set_key_ci m opts v).countP (fun p => q p.1) = m.countP (fun p => q p.1) := by
  cases hsfm : setKeyFirstMatch m (opts.map pyLower) v with
  | some d2 =>
    have h1 : set_key_ci m opts v = d2 := by rw [set_key_ci, hsfm]
    rw [h1]
    clear h1
    induction m generalizing d2 with
    | nil => cases hsfm
    | cons p r ih =>
      rw [setKeyFirstMatch_cons] at hsfm
      cases hc : (opts.map pyLower).contains (pyLower p.1) with
      | true =>
        rw [if_pos hc] at hsfm
        cases hsfm
        rw [List.countP_cons, List.countP_cons]
      | false =>
        rw [if_neg (by rw [hc]; simp)] at hsfm
        cases hs : setKeyFirstMatch r (opts.map pyLower) v with
        | none =>
          rw [hs] at hsfm
          exact Option.noConfusion hsfm
        | some r2 =>
          rw [hs] at hsfm
          have h2 : some (p :: r2) = some d2 := hsfm
          cases h2
          rw [List.countP_cons, List.countP_cons, ih r2 hs]
  | none =>
    have hall := sfm_none_all_false m opts v hsfm
    rw [set_key_ci_of_all_false m opts v hne hall, List.countP_append,
      List.countP_cons, List.countP_nil]
    have hqh : q (opts.headD "") = false := hq (opts.headD "") (matchOpts_head opts hne)
    rw [List.headD_eq_head?_getD] at hqh
    simp [hqh]

theorem countP_set_key_ci_self (m : List (String × Val)) (opts : List String) (v : Val)
    (hne : opts ≠ []) (hc : m.countP (fun p => matchOpts opts p.1) ≤ 1) :
    (set_key_ci m opts v).countP (fun p => matchOpts opts p.1) = 1 := by
  rcases Nat.le_one_iff_eq_zero_or_eq_one.mp hc with h0 | h1
  · rw [set_key_ci_of_count_zero m opts v hne h0, List.countP_append, h0,
      List.countP_cons, List.countP_nil]
    have hmO := matchOpts_head opts hne
    rw [List.headD_eq_head?_getD] at hmO
    simp [hmO]
  · rw [set_key_ci_of_count_one m opts v h1]
    have : (m.map (fun p => if matchOpts opts p.1 then (p.1, v) else p)).countP
        (fun p => matchOpts opts p.1) = m.countP (fun p => matchOpts opts p.1) := by
      clear hc h1
      induction m with
      | nil => rfl
      | cons p r ih =>
        rw [List.map_cons, List.countP_cons, List.countP_cons, ih]
        cases hm : matchOpts opts p.1 with
        | true => simp [hm]
        | false => simp [hm]
    rw [this, h1]

/-! Normal forms: the section-wise folds act entrywise on the document. -/

theorem foldl_updSection_cons (secs : List String)
    (gf : String → List (String × Val) → List (String × Val)) (p : String × Val) (r : Doc) :
    secs.foldl (fun d sec => updSection d sec (gf sec)) (p :: r) =
      secs.foldl (fun q sec => updEntry q sec (gf sec)) p ::
        secs.foldl (fun d sec => updSection d sec (gf sec)) r := by
  induction secs generalizing p r with
  | nil => rfl
  | cons s ss ih =>
    rw [List.foldl_cons, List.foldl_cons, List.foldl_cons,
      show updSection (p :: r) s (gf s) = updEntry p s (gf s) :: updSection r s (gf s) from rfl]
    exact ih _ _

theorem foldl_updEntry_four (gf : String → List (String × Val) → List (String × Val))
    (k : String) (v : Val) :
    fourNames.foldl (fun q sec => updEntry q sec (gf sec)) (k, v) =
      match v with
      | Val.map m =>
          if k == "blue" || k == "green" || k == "Blue" || k == "Green"
          then (k, Val.map (gf k m)) else (k, Val.map m)
      | _ => (k, v) := by
  cases v with
  | str s => rfl
  | int n => rfl
  | bool b => rfl
  | map m =>
    rcases eq_or_ne k "blue" with h | h1
    · subst h; rfl
    rcases eq_or_ne k "green" with h | h2
    · subst h; rfl
    rcases eq_or_ne k "Blue" with h | h3
    · subst h; rfl
    rcases eq_or_ne k "Green" with h | h4
    · subst h; rfl
    have b1 : (k == "blue") = false := beq_eq_false_iff_ne.mpr h1
    have b2 : (k == "green") = false := beq_eq_false_iff_ne.mpr h2
    have b3 : (k == "Blue") = false := beq_eq_false_iff_ne.mpr h3
    have b4 : (k == "Green") = false := beq_eq_false_iff_ne.mpr h4
    simp [fourNames, updEntry, b1, b2, b3, b4, h1, h2, h3, h4]

theorem foldl_updEntry_two (n1 n2 : String)
    (g : List (String × Val) → List (String × Val)) (k : String) (v : Val)
    (hne : (n1 == n2) = false) :
    [n1, n2].foldl (fun q sec => updEntry q sec g) (k, v) =
      match v with
      | Val.map m => if k == n1 || k == n2 then (k, Val.map (g m)) else (k, Val.map m)
      | _ => (k, v) := by
  cases v with
  | str s => rfl
  | int n => rfl
  | bool b => rfl
  | map m =>
    rcases eq_or_ne k n1 with h | h1
    · subst h
      have hkn2 : (k == n2) = false := hne
      have hk2 : k ≠ n2 := ne_of_beq_false hkn2
      simp [updEntry, hkn2, hk2]
    rcases eq_or_ne k n2 with h | h2
    · subst h
      simp [updEntry, h1]
    simp [updEntry, h1, h2]

/-- The combined per-section mutation of `set_active_slot_both` for a
section physically stored under key `sec`. -/
def secFlip (sec slot : String) (m : List (String × Val)) : List (String × Val) :=
  weightWrite slot sec (actWrite slot m)

/-- Entry-level description of `set_active_slot_both`. -/
def sabEntry (slot : String) (p : String × Val) : String × Val :=
  match p with
  | (k, Val.map m) =>
      if k == "blue" || k == "green" || k == "Blue" || k == "Green"
      then (k, Val.map (secFlip k slot m)) else (k, Val.map m)
  | p => p

theorem sab_entry_eval (slot : String) (k : String) (v : Val) :
    fourNames.foldl (fun q sec => updEntry q sec (weightWrite slot sec))
      (fourNames.foldl (fun q sec => updEntry q sec (actWrite slot)) (k, v)) =
      sabEntry slot (k, v) := by
  rw [foldl_updEntry_four (fun _ => actWrite slot) k v]
  cases v with
  | str s => rfl
  | int n => rfl
  | bool b => rfl
  | map m =>
    cases hf : (k == "blue" || k == "green" || k == "Blue" || k == "Green") with
    | true =>
      simp only [hf, ite_true]
      rw [foldl_updEntry_four (weightWrite slot) k (Val.map (actWrite slot m))]
      simp only [hf, ite_true]
      simp [sabEntry, secFlip, hf]
    | false =>
      simp only [hf]
      rw [if_neg (by simp)]
      rw [foldl_updEntry_four (weightWrite slot) k (Val.map m)]
      simp only [hf]
      rw [if_neg (by simp)]
      simp [sabEntry, hf]

theorem writeActiveslot_eq (doc : Doc) (slot : String) :
    writeActiveslot doc slot =
      List.foldl (fun d sec => updSection d sec (actWrite slot)) doc fourNames := rfl

theorem setWeights_eq (doc : Doc) (slot : String) :
    setWeights doc slot =
      List.foldl (fun d sec => updSection d sec (weightWrite slot sec)) doc fourNames := rfl

theorem set_active_slot_both_map (doc : Doc) (slot : String) :
    set_active_slot_both doc slot = doc.map (sabEntry slot) := by
  induction doc with
  | nil => rfl
  | cons p r ih =>
    obtain ⟨k, v⟩ := p
    have h1 : set_active_slot_both ((k, v) :: r) slot =
        fourNames.foldl (fun q sec => updEntry q sec (weightWrite slot sec))
          (fourNames.foldl (fun q sec => updEntry q sec (actWrite slot)) (k, v)) ::
          set_active_slot_both r slot := by
      show setWeights (writeActiveslot ((k, v) :: r) slot) slot = _
      rw [writeActiveslot_eq, foldl_updSection_cons fourNames (fun _ => actWrite slot) (k, v) r,
        setWeights_eq, foldl_updSection_cons fourNames (fun sec => weightWrite slot sec) _ _]
      rfl
    rw [h1, sab_entry_eval, ih, List.map_cons]

/-- Entry-level description of the older `set_active_slot_both` from
`pv/sample.py`. -/
def sampleEntry (slot : String) (p : String × Val) : String × Val :=
  match p with
  | (k, Val.map m) =>
      if k == "blue" || k == "green" || k == "Blue" || k == "Green"
      then (k, Val.map (pySet m "activeslot" (.str slot))) else (k, Val.map m)
  | p => p

theorem sample_set_active_slot_both_map (doc : Doc) (slot : String) :
    sample_set_active_slot_both doc slot = doc.map (sampleEntry slot) := by
  induction doc with
  | nil => rfl
  | cons p r ih =>
    obtain ⟨k, v⟩ := p
    have h1 : sample_set_active_slot_both ((k, v) :: r) slot =
        fourNames.foldl (fun q sec => updEntry q sec (sampleActWrite slot)) (k, v) ::
          sample_set_active_slot_both r slot :=
      foldl_updSection_cons fourNames (fun _ => sampleActWrite slot) (k, v) r
    rw [h1, foldl_updEntry_four (fun _ => sampleActWrite slot) k v, ih, List.map_cons]
    cases v with
    | str s => rfl
    | int n => rfl
    | bool b => rfl
    | map m =>
      cases hf : (k == "blue" || k == "green" || k == "Blue" || k == "Green") with
      | true => simp [sampleEntry, hf, sampleActWrite]
      | false => simp [sampleEntry, hf]

/-- Entry-level description of `turn_off_standby_switch`. -/
def toEntry (standby : String) (p : String × Val) : String × Val :=
  let p1 :=
    if standby == "blue" then
      ["blue", "Blue"].foldl (fun q sec => updEntry q sec blueSwitchOff) p
    else p
  if standby == "green" then
    ["green", "Green"].foldl (fun q sec => updEntry q sec greenSwitchOff) p1
  else p1

theorem turn_off_map (doc : Doc) (standby : String) :
    turn_off_standby_switch doc standby = doc.map (toEntry standby) := by
  cases hb : standby == "blue" with
  | true =>
    have hg : (standby == "green") = false := by
      have hsb : standby = "blue" := eq_of_beq hb
      subst hsb
      rfl
    induction doc with
    | nil => simp [turn_off_standby_switch, hb, hg, updSection]
    | cons p r ih =>
      rw [List.map_cons]
      have h1 : turn_off_standby_switch (p :: r) standby =
          ["blue", "Blue"].foldl (fun d sec => updSection d sec blueSwitchOff) (p :: r) := by
        simp [turn_off_standby_switch, hb, hg]
      have h2 : turn_off_standby_switch r standby =
          ["blue", "Blue"].foldl (fun d sec => updSection d sec blueSwitchOff) r := by
        simp [turn_off_standby_switch, hb, hg]
      have h3 : toEntry standby p =
          ["blue", "Blue"].foldl (fun q sec => updEntry q sec blueSwitchOff) p := by
        simp [toEntry, hb, hg]
      rw [h1, foldl_updSection_cons ["blue", "Blue"] (fun _ => blueSwitchOff) p r, h3, ← h2, ih]
  | false =>
    cases hg : standby == "green" with
    | true =>
      induction doc with
      | nil => simp [turn_off_standby_switch, hb, hg, updSection]
      | cons p r ih =>
        rw [List.map_cons]
        have h1 : turn_off_standby_switch (p :: r) standby =
            ["green", "Green"].foldl (fun d sec => updSection d sec greenSwitchOff) (p :: r) := by
          simp [turn_off_standby_switch, hb, hg]
        have h2 : turn_off_standby_switch r standby =
            ["green", "Green"].foldl (fun d sec => updSection d sec greenSwitchOff) r := by
          simp [turn_off_standby_switch, hb, hg]
        have h3 : toEntry standby p =
            ["green", "Green"].foldl (fun q sec => updEntry q sec greenSwitchOff) p := by
          simp [toEntry, hb, hg]
        rw [h1, foldl_updSection_cons ["green", "Green"] (fun _ => greenSwitchOff) p r, h3, ← h2,
          ih]
    | false =>
      have h1 : turn_off_standby_switch doc standby = doc := by
        simp [turn_off_standby_switch, hb, hg]
      have h2 : doc.map (toEntry standby) = doc := by
        apply map_id_of_mem
        intro p hp
        simp [toEntry, hb, hg]
      rw [h1, h2]

theorem toEntry_idem (standby : String) (p : String × Val) :
    toEntry standby (toEntry standby p) = toEntry standby p := by
  obtain ⟨k, v⟩ := p
  cases hb : standby == "blue" with
  | true =>
    have hg : (standby == "green") = false := by
      have hsb : standby = "blue" := eq_of_beq hb
      subst hsb
      rfl
    have hform : ∀ q : String × Val, toEntry standby q =
        ["blue", "Blue"].foldl (fun q2 sec => updEntry q2 sec blueSwitchOff) q := by
      intro q
      simp [toEntry, hb, hg]
    simp only [hform]
    rw [foldl_updEntry_two "blue" "Blue" blueSwitchOff k v (by decide)]
    cases v with
    | str s => rfl
    | int n => rfl
    | bool b2 => rfl
    | map m =>
      cases hc : (k == "blue" || k == "Blue") with
      | true =>
        simp only [hc, ite_true]
        rw [foldl_updEntry_two "blue" "Blue" blueSwitchOff k (Val.map (blueSwitchOff m))
          (by decide)]
        simp only [hc, ite_true]
        rw [show blueSwitchOff (blueSwitchOff m) = blueSwitchOff m from
          set_key_ci_idem m ["blueswitch", "BlueSwitch"] (.str "off") (by simp)]
      | false =>
        simp only [hc]
        rw [if_neg (by simp)]
        rw [foldl_updEntry_two "blue" "Blue" blueSwitchOff k (Val.map m) (by decide)]
        simp only [hc]
        rw [if_neg (by simp)]
  | false =>
    cases hg : standby == "green" with
    | true =>
      have hform : ∀ q : String × Val, toEntry standby q =
          ["green", "Green"].foldl (fun q2 sec => updEntry q2 sec greenSwitchOff) q := by
        intro q
        simp [toEntry, hb, hg]
      simp only [hform]
      rw [foldl_updEntry_two "green" "Green" greenSwitchOff k v (by decide)]
      cases v with
      | str s => rfl
      | int n => rfl
      | bool b2 => rfl
      | map m =>
        cases hc : (k == "green" || k == "Green") with
        | true =>
          simp only [hc, ite_true]
          rw [foldl_updEntry_two "green" "Green" greenSwitchOff k (Val.map (greenSwitchOff m))
            (by decide)]
          simp only [hc, ite_true]
          rw [show greenSwitchOff (greenSwitchOff m) = greenSwitchOff m from
            set_key_ci_idem m ["greenswitch", "GreenSwitch"] (.str "off") (by simp)]
        | false =>
          simp only [hc]
          rw [if_neg (by simp)]
          rw [foldl_updEntry_two "green" "Green" greenSwitchOff k (Val.map m) (by decide)]
          simp only [hc]
          rw [if_neg (by simp)]
    | false =>
      simp [toEntry, hb, hg]

/-- C7: setSwitch is idempotent: for every document doc, applying the
turn-off-standby-switch operation for a given slot twice yields exactly
the same document as applying it once; the second application changes no
key and no value. -/
theorem turn_off_standby_switch_idempotent (doc : Doc) (standby : String) :
    turn_off_standby_switch (turn_off_standby_switch doc standby) standby =
      turn_off_standby_switch doc standby := by
  rw [turn_off_map, turn_off_map, List.map_map]
  have hfun : (toEntry standby ∘ toEntry standby) = toEntry standby := by
    funext p
    exact toEntry_idem standby p
  rw [hfun]

/-! Version-key helpers and frame lemmas for `update_version`. -/

/-- Root keys recognized (case-insensitively) as the blue version key. -/
def blueVerKey (k : String) : Bool :=
  pyLower k == "appversion_blue" || pyLower k == "appversionblue"

/-- Root keys recognized (case-insensitively) as the green version key. -/
def greenVerKey (k : String) : Bool :=
  pyLower k == "appversion_green" || pyLower k == "appversiongreen"

theorem versionKeyMatches_blue (k : String) :
    versionKeyMatches "blue" k = blueVerKey k := by
  simp [versionKeyMatches, blueVerKey]

theorem versionKeyMatches_green (k : String) :
    versionKeyMatches "green" k = greenVerKey k := by
  simp [versionKeyMatches, greenVerKey]

theorem filter_map_untouched (l : List (String × Val)) (q : String × Val → Bool)
    (f : String × Val → String × Val)
    (hpres : ∀ p, q (f p) = q p) (hid : ∀ p, q p = true → f p = p) :
    (l.map f).filter q = l.filter q := by
  induction l with
  | nil => rfl
  | cons p r ih =>
    rw [List.map_cons, List.filter_cons, List.filter_cons, hpres p]
    cases hq : q p with
    | true => rw [hid p hq, ih]
    | false => simp [ih]

theorem pySet_filter_keyFalse (d : List (String × Val)) (k : String) (v : Val)
    (q : String × Val → Bool) (hq : ∀ w, q (k, w) = false) :
    (pySet d k v).filter q = d.filter q := by
  induction d with
  | nil => simp [pySet, List.filter_cons, hq v]
  | cons p r ih =>
    rw [pySet_cons]
    cases hbk : p.1 == k with
    | true =>
      have hk : p.1 = k := eq_of_beq hbk
      rw [if_pos rfl, List.filter_cons, List.filter_cons]
      rw [show q (p.1, v) = false from by rw [hk]; exact hq v]
      rw [show q p = false from by
        have hp2 : p = (k, p.2) := by rw [← hk]
        rw [hp2]; exact hq p.2]
      simp
    | false =>
      rw [if_neg (by simp [hbk]), List.filter_cons, List.filter_cons, ih]

theorem map_fst_of_fst_preserving (l : List (String × Val))
    (f : String × Val → String × Val) (h : ∀ p, (f p).1 = p.1) :
    (l.map f).map Prod.fst = l.map Prod.fst := by
  induction l with
  | nil => rfl
  | cons p r ih =>
    rw [List.map_cons, List.map_cons, List.map_cons, h p, ih]

theorem update_version_found (doc : Doc) (slot v : String)
    (hfound : doc.any (fun p => versionKeyMatches slot p.1) = true) :
    update_version doc slot v =
      doc.map (fun p => if versionKeyMatches slot p.1 then (p.1, Val.str v) else p) := by
  simp [update_version, hfound]

theorem update_version_not_found (doc : Doc) (slot v : String)
    (hfound : doc.any (fun p => versionKeyMatches slot p.1) = false) :
    update_version doc slot v =
      pySet doc (if slot == "blue" then "Appversion_blue" else "Appversion_green")
        (Val.str v) := by
  have hmap : doc.map (fun p => if versionKeyMatches slot p.1 then (p.1, Val.str v) else p) =
      doc := by
    apply map_id_of_mem
    intro p hp
    have := List.any_eq_false.mp hfound p hp
    simp only [Bool.not_eq_true] at this
    simp [this]
  cases hslot : slot == "blue" with
  | true => simp [update_version, hfound, hslot, hmap]
  | false => simp [update_version, hfound, hslot, hmap]

theorem update_version_filter_frame (doc : Doc) (slot v : String) (q : String → Bool)
    (hdis : ∀ k, q k = true → versionKeyMatches slot k = false)
    (hins : q (if slot == "blue" then "Appversion_blue" else "Appversion_green") = false) :
    (update_version doc slot v).filter (fun p => q p.1) = doc.filter (fun p => q p.1) := by
  cases hfound : doc.any (fun p => versionKeyMatches slot p.1) with
  | true =>
    rw [update_version_found doc slot v hfound]
    apply filter_map_untouched
    · intro p
      cases hm : versionKeyMatches slot p.1 with
      | true => simp [hm]
      | false => simp [hm]
    · intro p hq
      simp [hdis p.1 hq]
  | false =>
    rw [update_version_not_found doc slot v hfound]
    rw [pySet_filter_keyFalse _ _ _ _ (fun w => hins)]

/-- C1 counterexample: with the invalid slot "red" on an empty document,
`update_version` (in both source variants) raises no error and inserts
the key `Appversion_green`, so the document does change. -/
theorem update_version_invalid_slot_changes_doc :
    update_version [] "red" "1.0" = [("Appversion_green", Val.str "1.0")] ∧
    sample_update_version [] "red" "1.0" = [("Appversion_green", Val.str "1.0")] ∧
    update_version [] "red" "1.0" ≠ [] := by
  refine ⟨by decide, by decide, by decide⟩

/-- C1 (amended): for every document and version string, with a slot that
is neither "blue" nor "green", `update_version` (both variants) does not
fail; it overwrites no existing key except possibly the literal key
`Appversion_green`, which it unconditionally assigns the new version
(inserting it at the end when absent) - it behaves exactly like the
Python assignment `doc["Appversion_green"] = new_version`. -/
theorem update_version_invalid_slot_behavior (doc : Doc) (slot v : String)
    (h1 : slot ≠ "blue") (h2 : slot ≠ "green") :
    update_version doc slot v = pySet doc "Appversion_green" (Val.str v) ∧
    sample_update_version doc slot v = pySet doc "Appversion_green" (Val.str v) := by
  have hb : (slot == "blue") = false := beq_eq_false_iff_ne.mpr h1
  have hg : (slot == "green") = false := beq_eq_false_iff_ne.mpr h2
  have hmatch : ∀ k, versionKeyMatches slot k = false := by
    intro k
    simp [versionKeyMatches, hb, hg]
  have hmatchS : ∀ k, sampleVersionKeyMatches slot k = false := by
    intro k
    simp [sampleVersionKeyMatches, hb, hg]
  constructor
  · have hfound : doc.any (fun p => versionKeyMatches slot p.1) = false :=
      List.any_eq_false.mpr (fun p _ => by simp [hmatch p.1])
    rw [update_version_not_found doc slot v hfound, hb]
    rfl
  · have hmap : doc.map (fun p => if sampleVersionKeyMatches slot p.1
        then (p.1, Val.str v) else p) = doc := by
      apply map_id_of_mem
      intro p hp
      simp [hmatchS p.1]
    have hfound : doc.any (fun p => sampleVersionKeyMatches slot p.1) = false :=
      List.any_eq_false.mpr (fun p _ => by simp [hmatchS p.1])
    simp [sample_update_version, hfound, hb, hg, hmap]

/-- C1 amended claim evaluated at a concrete invalid slot. -/
theorem update_version_invalid_slot_behavior_witness :
    update_version [("x", Val.int 1)] "red" "9" =
      pySet [("x", Val.int 1)] "Appversion_green" (Val.str "9") ∧
    sample_update_version [("x", Val.int 1)] "red" "9" =
      pySet [("x", Val.int 1)] "Appversion_green" (Val.str "9") :=
  update_version_invalid_slot_behavior [("x", Val.int 1)] "red" "9"
    (by decide) (by decide)

/-- C5: `setVersion(doc, "blue", v)` leaves every root-level key whose
case-insensitive form matches `appversion_green` or `appversiongreen`
byte-identical (same key, same value); only keys matching
`appversion_blue` / `appversionblue` can change value, and symmetrically
for slot "green". -/
theorem update_version_frame (doc : Doc) (v : String) :
    ((update_version doc "blue" v).filter (fun p => greenVerKey p.1) =
      doc.filter (fun p => greenVerKey p.1)) ∧
    ((update_version doc "blue" v).filter (fun p => !(blueVerKey p.1)) =
      doc.filter (fun p => !(blueVerKey p.1))) ∧
    ((update_version doc "green" v).filter (fun p => blueVerKey p.1) =
      doc.filter (fun p => blueVerKey p.1)) ∧
    ((update_version doc "green" v).filter (fun p => !(greenVerKey p.1)) =
      doc.filter (fun p => !(greenVerKey p.1))) := by
  refine ⟨?_, ?_, ?_, ?_⟩
  · apply update_version_filter_frame
    · intro k hk
      rw [versionKeyMatches_blue]
      simp [greenVerKey] at hk
      rcases hk with h | h <;> simp [blueVerKey, h]
    · decide
  · apply update_version_filter_frame doc "blue" v (fun k => !(blueVerKey k))
    · intro k hk
      rw [versionKeyMatches_blue]
      simp only [Bool.not_eq_eq_eq_not, Bool.not_true] at hk
      exact hk
    · decide
  · apply update_version_filter_frame
    · intro k hk
      rw [versionKeyMatches_green]
      simp [blueVerKey] at hk
      rcases hk with h | h <;> simp [greenVerKey, h]
    · decide
  · apply update_version_filter_frame doc "green" v (fun k => !(greenVerKey k))
    · intro k hk
      rw [versionKeyMatches_green]
      simp only [Bool.not_eq_eq_eq_not, Bool.not_true] at hk
      exact hk
    · decide

/-- C6: `setVersion` writes the new version to every root-level key whose
case-insensitive form matches `appversion_<slot>` or the underscore-free
alternate spelling (all duplicate differently-cased matches are
overwritten); when no matching key exists it appends exactly one new key
with the canonical capitalized spelling. -/
theorem update_version_append (doc : Doc) (slot v : String)
    (hslot : slot = "blue" ∨ slot = "green")
    (hfound : doc.any (fun p => versionKeyMatches slot p.1) = false) :
    update_version doc slot v =
      doc ++ [((if slot = "blue" then "Appversion_blue" else "Appversion_green"),
        Val.str v)] := by
  rcases hslot with hs | hs
  · subst hs
    rw [update_version_not_found doc "blue" v hfound]
    have habs : ∀ q ∈ doc, (q.1 == "Appversion_blue") = false := by
      intro q hq
      cases hbk : q.1 == "Appversion_blue" with
      | false => rfl
      | true =>
        exfalso
        have hk : q.1 = "Appversion_blue" := eq_of_beq hbk
        have hq0 := List.any_eq_false.mp hfound q hq
        simp only [Bool.not_eq_true] at hq0
        rw [hk] at hq0
        simp [versionKeyMatches] at hq0
        exact hq0.1 (by decide)
    rw [show ((if ("blue" : String) == "blue" then "Appversion_blue"
      else "Appversion_green") : String) = "Appversion_blue" from rfl]
    rw [pySet_of_not_mem doc _ _ habs]
    simp
  · subst hs
    rw [update_version_not_found doc "green" v hfound]
    have habs : ∀ q ∈ doc, (q.1 == "Appversion_green") = false := by
      intro q hq
      cases hbk : q.1 == "Appversion_green" with
      | false => rfl
      | true =>
        exfalso
        have hk : q.1 = "Appversion_green" := eq_of_beq hbk
        have hq0 := List.any_eq_false.mp hfound q hq
        simp only [Bool.not_eq_true] at hq0
        rw [hk] at hq0
        simp [versionKeyMatches] at hq0
        exact hq0.1 (by decide)
    rw [show ((if ("green" : String) == "blue" then "Appversion_blue"
      else "Appversion_green") : String) = "Appversion_green" from rfl]
    rw [pySet_of_not_mem doc _ _ habs]
    simp

/-- C6: `setVersion` writes the new version to every root-level key whose
case-insensitive form matches `appversion_<slot>` or the underscore-free
alternate spelling (all duplicate differently-cased matches are
overwritten); when no matching key exists it appends exactly one new key
with the canonical capitalized spelling. -/
theorem update_version_writes_every_match (doc : Doc) (slot v : String)
    (hslot : slot = "blue" ∨ slot = "green") :
    (∀ p ∈ update_version doc slot v, versionKeyMatches slot p.1 = true → p.2 = Val.str v) ∧
    (doc.any (fun p => versionKeyMatches slot p.1) = true →
      (update_version doc slot v).map Prod.fst = doc.map Prod.fst) ∧
    (doc.any (fun p => versionKeyMatches slot p.1) = false →
      update_version doc slot v =
        doc ++ [((if slot = "blue" then "Appversion_blue" else "Appversion_green"),
          Val.str v)]) := by
  refine ⟨?_, ?_, ?_⟩
  · intro p hp hm
    cases hfound : doc.any (fun p => versionKeyMatches slot p.1) with
    | true =>
      rw [update_version_found doc slot v hfound] at hp
      rcases List.mem_map.mp hp with ⟨q, hq, hfq⟩
      cases hvq : versionKeyMatches slot q.1 with
      | true =>
        rw [← hfq]
        simp [hvq]
      | false =>
        rw [if_neg (by simp [hvq])] at hfq
        rw [← hfq] at hm
        rw [hvq] at hm
        exact Bool.noConfusion hm
    | false =>
      rw [update_version_append doc slot v hslot hfound] at hp
      rcases List.mem_append.mp hp with hin | hin
      · have hq0 := List.any_eq_false.mp hfound p hin
        simp only [Bool.not_eq_true] at hq0
        rw [hq0] at hm
        exact Bool.noConfusion hm
      · rw [List.mem_singleton.mp hin]
  · intro hfound
    rw [update_version_found doc slot v hfound]
    apply map_fst_of_fst_preserving
    intro p
    cases hv : versionKeyMatches slot p.1 with
    | true => simp [hv]
    | false => simp [hv]
  · intro hfound
    exact update_version_append doc slot v hslot hfound

/-- C6 claim evaluated at a concrete document and slot. -/
theorem update_version_writes_every_match_witness :
    (∀ p ∈ update_version [("APPVERSION_BLUE", Val.str "v0"), ("appversionblue", Val.str "v1"),
        ("Appversion_green", Val.str "g")] "blue" "9.9",
      versionKeyMatches "blue" p.1 = true → p.2 = Val.str "9.9") ∧
    update_version [("x", Val.int 1)] "blue" "9.9" =
      [("x", Val.int 1)] ++ [("Appversion_blue", Val.str "9.9")] := by
  constructor
  · exact (update_version_writes_every_match
      [("APPVERSION_BLUE", Val.str "v0"), ("appversionblue", Val.str "v1"),
        ("Appversion_green", Val.str "g")] "blue" "9.9" (Or.inl rfl)).1
  · have h := (update_version_writes_every_match [("x", Val.int 1)] "blue" "9.9"
      (Or.inl rfl)).2.2 (by decide)
    simpa using h

theorem fourCond_true (k : String)
    (hf : (k == "blue" || k == "green" || k == "Blue" || k == "Green") = true) :
    ((k = "blue" ∨ k = "green") ∨ k = "Blue") ∨ k = "Green" := by
  simp only [Bool.or_eq_true, beq_iff_eq] at hf
  tauto

theorem fourCond_false (k : String)
    (hf : (k == "blue" || k == "green" || k == "Blue" || k == "Green") = false) :
    ¬(((k = "blue" ∨ k = "green") ∨ k = "Blue") ∨ k = "Green") := by
  intro hcon
  have ht : (k == "blue" || k == "green" || k == "Blue" || k == "Green") = true := by
    rcases hcon with ((h | h) | h) | h <;> simp [h]
  rw [ht] at hf
  exact Bool.noConfusion hf

/-- C9: detect_active_slot is total only under a string-typed
precondition: when the consulted section-level `activeslot` value is a
string the function returns normally with its trimmed lower-cased value;
when that value is not a string the call raises; and when no section
provides `activeslot`, the root-level fallback coerces any value with
`str()` and never raises. -/
theorem detect_active_slot_string_precondition (doc : Doc) (s : String) (v : Val) :
    (sectionSlotVal ((lkGet doc "blue").getD (.map [])) = some (Val.str s) →
      detect_active_slot doc = .ok (pyLower (pyStrip s))) ∧
    (sectionSlotVal ((lkGet doc "blue").getD (.map [])) = some v → (∀ t, v ≠ Val.str t) →
      detect_active_slot doc = .error ()) ∧
    (sectionSlotVal ((lkGet doc "blue").getD (.map [])) = none →
      sectionSlotVal ((lkGet doc "green").getD (.map [])) = some (Val.str s) →
      detect_active_slot doc = .ok (pyLower (pyStrip s))) ∧
    (sectionSlotVal ((lkGet doc "blue").getD (.map [])) = none →
      sectionSlotVal ((lkGet doc "green").getD (.map [])) = some v → (∀ t, v ≠ Val.str t) →
      detect_active_slot doc = .error ()) ∧
    (sectionSlotVal ((lkGet doc "blue").getD (.map [])) = none →
      sectionSlotVal ((lkGet doc "green").getD (.map [])) = none →
      (detect_active_slot doc).isOk = true) := by
  refine ⟨?_, ?_, ?_, ?_, ?_⟩
  · intro h
    simp only [detect_active_slot, h]
    rfl
  · intro h hns
    simp only [detect_active_slot, h]
    cases v with
    | str t => exact absurd rfl (hns t)
    | int n => rfl
    | bool b => rfl
    | map m => rfl
  · intro hb hg
    simp only [detect_active_slot, hb, hg]
    rfl
  · intro hb hg hns
    simp only [detect_active_slot, hb, hg]
    cases v with
    | str t => exact absurd rfl (hns t)
    | int n => rfl
    | bool b => rfl
    | map m => rfl
  · intro hb hg
    simp only [detect_active_slot, hb, hg]
    cases lkGet doc "activeslot" <;> rfl

/-- C9 evaluated at concrete documents: a string-valued section slot
succeeds, a non-string section slot raises, and a root-level non-string
`activeslot` never raises. -/
theorem detect_active_slot_string_precondition_witness :
    detect_active_slot [("blue", Val.map [("activeslot", Val.str " Blue ")])] = .ok "blue" ∧
    detect_active_slot [("blue", Val.map [("activeslot", Val.int 5)])] = .error () ∧
    (detect_active_slot [("activeslot", Val.bool true)]).isOk = true := by
  refine ⟨?_, ?_, ?_⟩
  · have h := (detect_active_slot_string_precondition
      [("blue", Val.map [("activeslot", Val.str " Blue ")])] " Blue " (Val.str " Blue ")).1
      (by decide)
    rw [h]
    decide
  · exact (detect_active_slot_string_precondition
      [("blue", Val.map [("activeslot", Val.int 5)])] "" (Val.int 5)).2.1
      (by decide) (fun t h => Val.noConfusion h)
  · exact (detect_active_slot_string_precondition
      [("activeslot", Val.bool true)] "" (Val.bool true)).2.2.2.2 (by decide) (by decide)

theorem sampleEntry_fst (slot : String) (p : String × Val) :
    (sampleEntry slot p).1 = p.1 := by
  obtain ⟨k, v⟩ := p
  cases v with
  | str s => rfl
  | int n => rfl
  | bool b => rfl
  | map m =>
    cases hf : (k == "blue" || k == "green" || k == "Blue" || k == "Green") with
    | true => simp [sampleEntry, hf]
    | false => simp [sampleEntry, hf]

/-- C10: the `pv/sample.py` auto-flip mutation modifies only the
`activeslot` field of each physically-present blue/green section: root
keys are preserved, non-mapping values are untouched, and inside each
section every entry other than the literal key `activeslot` (in
particular every weight, standbyweight and switch field) is unchanged -
so this variant does not establish the weight invariant that the newer
variant enforces. -/
theorem sample_set_active_slot_frame (doc : Doc) (slot : String) :
    ((sample_set_active_slot_both doc slot).map Prod.fst = doc.map Prod.fst) ∧
    (∀ k v, getExact doc k = some v → (∀ m, v ≠ Val.map m) →
      getExact (sample_set_active_slot_both doc slot) k = some v) ∧
    (∀ k m, getExact doc k = some (Val.map m) →
      ∃ m2, getExact (sample_set_active_slot_both doc slot) k = some (Val.map m2) ∧
        m2.filter (fun p => p.1 != "activeslot") = m.filter (fun p => p.1 != "activeslot")) ∧
    (∀ k, (k == "blue" || k == "green" || k == "Blue" || k == "Green") = false →
      getExact (sample_set_active_slot_both doc slot) k = getExact doc k) := by
  rw [sample_set_active_slot_both_map]
  refine ⟨?_, ?_, ?_, ?_⟩
  · exact map_fst_of_fst_preserving doc (sampleEntry slot) (sampleEntry_fst slot)
  · intro k v h hns
    rw [getExact_map (sampleEntry slot) (sampleEntry_fst slot) doc k, h]
    cases v with
    | str s => rfl
    | int n => rfl
    | bool b => rfl
    | map m => exact absurd rfl (hns m)
  · intro k m h
    rw [getExact_map (sampleEntry slot) (sampleEntry_fst slot) doc k, h]
    cases hf : (k == "blue" || k == "green" || k == "Blue" || k == "Green") with
    | true =>
      refine ⟨pySet m "activeslot" (.str slot), ?_, ?_⟩
      · simp only [sampleEntry, Option.map_some']
        rw [if_pos hf]
      · exact pySet_filter_ne m "activeslot" (.str slot)
    | false =>
      refine ⟨m, ?_, rfl⟩
      simp only [sampleEntry, Option.map_some']
      rw [if_neg (by rw [hf]; simp)]
  · intro k hf
    rw [getExact_map (sampleEntry slot) (sampleEntry_fst slot) doc k]
    cases h : getExact doc k with
    | none => rfl
    | some v =>
      cases v with
      | str s => rfl
      | int n => rfl
      | bool b => rfl
      | map m =>
        simp only [sampleEntry, Option.map_some']
        rw [if_neg (by rw [hf]; simp)]

/-- C10 evaluated at a concrete document. -/
theorem sample_set_active_slot_frame_witness :
    getExact (sample_set_active_slot_both
      [("blue", Val.map [("weight", Val.int 100), ("activeslot", Val.str "blue")]),
       ("Appversion_blue", Val.str "v1")] "green") "Appversion_blue" = some (Val.str "v1") ∧
    (∃ m2, getExact (sample_set_active_slot_both
        [("blue", Val.map [("weight", Val.int 100), ("activeslot", Val.str "blue")]),
         ("Appversion_blue", Val.str "v1")] "green") "blue" = some (Val.map m2) ∧
      m2.filter (fun p => p.1 != "activeslot") =
        [("weight", Val.int 100), ("activeslot", Val.str "blue")].filter
          (fun p => p.1 != "activeslot")) := by
  constructor
  · exact (sample_set_active_slot_frame
      [("blue", Val.map [("weight", Val.int 100), ("activeslot", Val.str "blue")]),
       ("Appversion_blue", Val.str "v1")] "green").2.1 "Appversion_blue" (Val.str "v1")
      (by decide) (fun m h => Val.noConfusion h)
  · exact (sample_set_active_slot_frame
      [("blue", Val.map [("weight", Val.int 100), ("activeslot", Val.str "blue")]),
       ("Appversion_blue", Val.str "v1")] "green").2.2.1 "blue"
      [("weight", Val.int 100), ("activeslot", Val.str "blue")] (by decide)

/-! Claim C3: weights after the flip. -/

theorem sabEntry_fst (slot : String) (p : String × Val) : (sabEntry slot p).1 = p.1 := by
  obtain ⟨k, v⟩ := p
  cases v with
  | str s => rfl
  | int n => rfl
  | bool b => rfl
  | map m =>
    cases hf : (k == "blue" || k == "green" || k == "Blue" || k == "Green") with
    | true =>
      simp only [sabEntry]
      rw [if_pos hf]
    | false =>
      simp only [sabEntry]
      rw [if_neg (by rw [hf]; simp)]

theorem lkGetF_congr_lopts (m : List (String × Val)) (lopts1 lopts2 : List String)
    (h : ∀ x, lopts1.contains x = lopts2.contains x) :
    lkGetF m lopts1 = lkGetF m lopts2 := by
  induction m with
  | nil => rfl
  | cons p r ih =>
    rw [lkGetF_cons, lkGetF_cons, ih, h (pyLower p.1)]

theorem act_not_w (k : String) (h : matchOpts ["activeslot", "ActiveSlot"] k = true) :
    matchOpts ["Weight", "weight"] k = false := by
  have e1 : List.map pyLower ["activeslot", "ActiveSlot"] = ["activeslot", "activeslot"] := by
    decide
  rw [matchOpts_def, e1] at h
  simp [List.contains_cons] at h
  have e2 : List.map pyLower ["Weight", "weight"] = ["weight", "weight"] := by decide
  rw [matchOpts_def, e2, h]
  decide

theorem act_not_sb (k : String) (h : matchOpts ["activeslot", "ActiveSlot"] k = true) :
    matchOpts ["Standbyweight", "standbyweight", "Standybyweight", "standybyweight"] k =
      false := by
  have e1 : List.map pyLower ["activeslot", "ActiveSlot"] = ["activeslot", "activeslot"] := by
    decide
  rw [matchOpts_def, e1] at h
  simp [List.contains_cons] at h
  have e2 : List.map pyLower ["Standbyweight", "standbyweight", "Standybyweight",
      "standybyweight"] =
      ["standbyweight", "standbyweight", "standybyweight", "standybyweight"] := by decide
  rw [matchOpts_def, e2, h]
  decide

theorem w_not_sb (k : String) (h : matchOpts ["Weight", "weight"] k = true) :
    matchOpts ["Standbyweight", "standbyweight", "Standybyweight", "standybyweight"] k =
      false := by
  have e1 : List.map pyLower ["Weight", "weight"] = ["weight", "weight"] := by decide
  rw [matchOpts_def, e1] at h
  simp [List.contains_cons] at h
  have e2 : List.map pyLower ["Standbyweight", "standbyweight", "Standybyweight",
      "standybyweight"] =
      ["standbyweight", "standbyweight", "standybyweight", "standybyweight"] := by decide
  rw [matchOpts_def, e2, h]
  decide

theorem sb_not_w (s : String)
    (h : ((["Standbyweight", "standbyweight", "Standybyweight",
      "standybyweight"].map pyLower).contains s) = true) :
    ((["weight"] : List String).contains s) = false := by
  have e2 : List.map pyLower ["Standbyweight", "standbyweight", "Standybyweight",
      "standybyweight"] =
      ["standbyweight", "standbyweight", "standybyweight", "standybyweight"] := by decide
  rw [e2] at h
  simp [List.contains_cons] at h
  rcases h with h | h <;> rw [h] <;> decide

/-- Document exhibiting the C3 counterexample: the blue section is
physically stored under the key "BLUE". -/
def oddCaseDoc : Doc :=
  [("BLUE", .map [("activeslot", .str "blue"), ("weight", .int 100),
    ("standbyweight", .int 0)])]

/-- C3 counterexample: on a document whose (unique) blue section is
stored under the key "BLUE", the computed standby target is "green", yet
`set_active_slot_both` changes nothing: the blue-colored section - whose
color differs from the new active color - keeps weight 100 and
standbyweight 0 instead of the claimed 0 and 100. -/
theorem set_active_slot_both_skips_oddcased_section :
    detect_active_slot oddCaseDoc = .ok "blue" ∧
    standby_slot "blue" = "green" ∧
    set_active_slot_both oddCaseDoc "green" = oddCaseDoc ∧
    (lookupSection (set_active_slot_both oddCaseDoc "green") "BLUE").map
      (fun m => lkGetF m ["weight"]) = some (some (.int 100)) ∧
    (lookupSection (set_active_slot_both oddCaseDoc "green") "BLUE").map
      (fun m => lkGetF m ["standbyweight", "standybyweight"]) = some (some (.int 0)) := by
  refine ⟨by decide, by decide, by decide, by decide, by decide⟩

/-- C3 (amended): after `set_active_slot_both doc slot`, every section
stored under exactly one of the four spellings blue/green/Blue/Green
whose mapping carries at most one case-variant of the weight key and at
most one key of the standbyweight family reads (case-insensitively)
weight = 100 and standbyweight-family = 0 when the section's own color
equals the new active color, and weight = 0, standbyweight-family = 100
otherwise.  Sections stored under any other casing (e.g. "BLUE") are not
touched at all, and with duplicate case-variants of a field only the
first variant is written. -/
theorem set_active_slot_both_weights (doc : Doc) (slot k : String)
    (m : List (String × Val))
    (hk : (k == "blue" || k == "green" || k == "Blue" || k == "Green") = true)
    (hm : getExact doc k = some (Val.map m))
    (hw : m.countP (fun p => matchOpts ["Weight", "weight"] p.1) ≤ 1)
    (hsb : m.countP (fun p => matchOpts ["Standbyweight", "standbyweight", "Standybyweight",
      "standybyweight"] p.1) ≤ 1) :
    ∃ m2, getExact (set_active_slot_both doc slot) k = some (Val.map m2) ∧
      lkGetF m2 ["weight"] =
        some (Val.int (if pyLower k == pyLower slot then 100 else 0)) ∧
      lkGetF m2 ["standbyweight", "standybyweight"] =
        some (Val.int (if pyLower k == pyLower slot then 0 else 100)) := by
  rw [set_active_slot_both_map, getExact_map (sabEntry slot) (sabEntry_fst slot) doc k, hm]
  refine ⟨secFlip k slot m, ?_, ?_, ?_⟩
  · simp only [sabEntry, Option.map_some']
    rw [if_pos hk]
  · show lkGetF (secFlip k slot m) ["weight"] = _
    rw [show secFlip k slot m =
      set_key_ci
        (set_key_ci (set_key_ci m ["activeslot", "ActiveSlot"] (.str slot))
          ["Weight", "weight"]
          (.int (if pyLower k == pyLower slot then 100 else 0)))
        ["Standbyweight", "standbyweight", "Standybyweight", "standybyweight"]
        (.int (if pyLower k == pyLower slot then 0 else 100)) from rfl]
    rw [lkGetF_set_frame _ _ _ _ (by simp) (fun s hs => sb_not_w s hs)]
    rw [lkGetF_congr_lopts _ ["weight"] (["Weight", "weight"].map pyLower)
      (by
        intro x
        have e2 : List.map pyLower ["Weight", "weight"] = ["weight", "weight"] := by decide
        rw [e2]
        cases hx : x == "weight" <;> simp [List.contains_cons, hx])]
    apply lkGetF_set_read _ _ _ (by simp)
    rw [countP_set_key_ci_frame m ["activeslot", "ActiveSlot"] (.str slot) _ (by simp)
      (fun k2 h => act_not_w k2 h)]
    exact hw
  · show lkGetF (secFlip k slot m) ["standbyweight", "standybyweight"] = _
    rw [show secFlip k slot m =
      set_key_ci
        (set_key_ci (set_key_ci m ["activeslot", "ActiveSlot"] (.str slot))
          ["Weight", "weight"]
          (.int (if pyLower k == pyLower slot then 100 else 0)))
        ["Standbyweight", "standbyweight", "Standybyweight", "standybyweight"]
        (.int (if pyLower k == pyLower slot then 0 else 100)) from rfl]
    rw [lkGetF_congr_lopts _ ["standbyweight", "standybyweight"]
      (["Standbyweight", "standbyweight", "Standybyweight", "standybyweight"].map pyLower)
      (by
        intro x
        have e2 : List.map pyLower ["Standbyweight", "standbyweight", "Standybyweight",
            "standybyweight"] =
            ["standbyweight", "standbyweight", "standybyweight", "standybyweight"] := by decide
        rw [e2]
        cases hx : x == "standbyweight" <;> cases hy : x == "standybyweight" <;>
          simp [List.contains_cons, hx, hy])]
    apply lkGetF_set_read _ _ _ (by simp)
    rw [countP_set_key_ci_frame _ ["Weight", "weight"] _ _ (by simp)
      (fun k2 h => w_not_sb k2 h)]
    rw [countP_set_key_ci_frame m ["activeslot", "ActiveSlot"] (.str slot) _ (by simp)
      (fun k2 h => act_not_sb k2 h)]
    exact hsb

/-- C3 amended claim evaluated on the README example document. -/
theorem set_active_slot_both_weights_witness :
    ∃ m2, getExact (set_active_slot_both
        [("blue", Val.map [("activeslot", Val.str "blue"), ("Weight", Val.int 100),
          ("Standbyweight", Val.int 0)])] "green") "blue" = some (Val.map m2) ∧
      lkGetF m2 ["weight"] = some (Val.int (if pyLower "blue" == pyLower "green" then 100
        else 0)) ∧
      lkGetF m2 ["standbyweight", "standybyweight"] =
        some (Val.int (if pyLower "blue" == pyLower "green" then 0 else 100)) :=
  set_active_slot_both_weights
    [("blue", Val.map [("activeslot", Val.str "blue"), ("Weight", Val.int 100),
      ("Standbyweight", Val.int 0)])] "green" "blue"
    [("activeslot", Val.str "blue"), ("Weight", Val.int 100), ("Standbyweight", Val.int 0)]
    (by decide) (by decide) (by decide) (by decide)

/-! Claim C2: conflicts on the conditional write stop the orchestration. -/

/-- C2: if the revision-conditioned file write reports a conflict (the
store call fails, as `GH._req` raises on any status >= 400), neither
`propose_version_update` nor `propose_auto_flip` ever calls
createPullRequest: the traces contain no createPR call, the store error
propagates to the caller, and no pull-request handle is returned. -/
theorem propose_no_pr_on_write_conflict
    (gh : GHOracle)
    (owner repo base_branch yaml_path app_label env_label target_slot new_version now : String)
    (doc : Doc) (sha act err : String) (turn_off_switch : Bool)
    (hcb : ∀ a b c d, gh.createBranchR a b c d = .ok ())
    (hgf : ∀ a b c d, gh.getFileR a b c d = .ok (doc, sha))
    (hup : ∀ a b c d w f g2, gh.updateFileR a b c d w f g2 = .error err)
    (hdet : detect_active_slot doc = .ok act) :
    (noCreatePR (propose_version_update gh owner repo base_branch yaml_path app_label
        env_label target_slot new_version now).1 = true ∧
      (propose_version_update gh owner repo base_branch yaml_path app_label env_label
        target_slot new_version now).2 = .error (.store err)) ∧
    (noCreatePR (propose_auto_flip gh owner repo base_branch yaml_path app_label env_label
        turn_off_switch now).1 = true ∧
      (propose_auto_flip gh owner repo base_branch yaml_path app_label env_label
        turn_off_switch now).2 = .error (.store err)) := by
  refine ⟨⟨?_, ?_⟩, ⟨?_, ?_⟩⟩ <;>
    simp [propose_version_update, propose_auto_flip, hcb, hgf, hup, hdet,
      noCreatePR, isCreatePR]

/-- Stub store oracle whose conditional write always reports a conflict. -/
def conflictGH : GHOracle where
  createBranchR := fun _ _ _ _ => .ok ()
  getFileR := fun _ _ _ _ =>
    .ok ([("blue", Val.map [("activeslot", Val.str "blue")])], "sha0")
  updateFileR := fun _ _ _ _ _ _ _ => .error "409 Conflict"
  createPRR := fun _ _ _ _ _ _ => .ok ⟨"https://example/pr/1", "t"⟩

/-- C2 evaluated against the conflicting stub store. -/
theorem propose_no_pr_on_write_conflict_witness :
    (noCreatePR (propose_version_update conflictGH "o" "r" "main" "apps/app1/values.yaml"
        "app1" "dev-us" "blue" "1.2.3" "20260101-000000").1 = true ∧
      (propose_version_update conflictGH "o" "r" "main" "apps/app1/values.yaml" "app1"
        "dev-us" "blue" "1.2.3" "20260101-000000").2 = .error (.store "409 Conflict")) ∧
    (noCreatePR (propose_auto_flip conflictGH "o" "r" "main" "apps/app1/values.yaml" "app1"
        "dev-us" false "20260101-000000").1 = true ∧
      (propose_auto_flip conflictGH "o" "r" "main" "apps/app1/values.yaml" "app1" "dev-us"
        false "20260101-000000").2 = .error (.store "409 Conflict")) :=
  propose_no_pr_on_write_conflict conflictGH "o" "r" "main" "apps/app1/values.yaml" "app1"
    "dev-us" "blue" "1.2.3" "20260101-000000"
    [("blue", Val.map [("activeslot", Val.str "blue")])] "sha0" "blue" "409 Conflict" false
    (fun _ _ _ _ => rfl) (fun _ _ _ _ => rfl) (fun _ _ _ _ _ _ _ => rfl) (by decide)

/-! Claim C8 machinery: key-case-insensitivity of detect_active_slot. -/

theorem toNat_ofNat_of_lt (n : Nat) (h : n < 55296) : (Char.ofNat n).toNat = n := by
  have hv : n.isValidChar := Or.inl h
  simp [Char.ofNat, dif_pos hv, Char.ofNatAux, Char.toNat, UInt32.toNat]

theorem isPySpace_toLower (c : Char) : isPySpace (Char.toLower c) = isPySpace c := by
  rw [Char.toLower]
  by_cases h : c.toNat ≥ 65 ∧ c.toNat ≤ 90
  · rw [if_pos h]
    have ht : (Char.ofNat (c.toNat + 32)).toNat = c.toNat + 32 :=
      toNat_ofNat_of_lt (c.toNat + 32) (by omega)
    simp only [isPySpace, ht]
    have e1 : (c.toNat + 32 == 32) = false := beq_eq_false_iff_ne.mpr (by omega)
    have e2 : (c.toNat + 32 == 9) = false := beq_eq_false_iff_ne.mpr (by omega)
    have e3 : (c.toNat + 32 == 10) = false := beq_eq_false_iff_ne.mpr (by omega)
    have e4 : (c.toNat + 32 == 13) = false := beq_eq_false_iff_ne.mpr (by omega)
    have f1 : (c.toNat == 32) = false := beq_eq_false_iff_ne.mpr (by omega)
    have f2 : (c.toNat == 9) = false := beq_eq_false_iff_ne.mpr (by omega)
    have f3 : (c.toNat == 10) = false := beq_eq_false_iff_ne.mpr (by omega)
    have f4 : (c.toNat == 13) = false := beq_eq_false_iff_ne.mpr (by omega)
    rw [e1, e2, e3, e4, f1, f2, f3, f4]
  · rw [if_neg h]

theorem pyLower_append (a b : String) : pyLower (a ++ b) = pyLower a ++ pyLower b := by
  show String.mk ((a ++ b).data.map Char.toLower) = _
  rw [String.data_append, List.map_append]
  rfl

theorem dropWhile_pySpace_map_toLower (l : List Char) :
    (l.map Char.toLower).dropWhile isPySpace = (l.dropWhile isPySpace).map Char.toLower := by
  rw [List.dropWhile_map]
  have hp : (isPySpace ∘ Char.toLower) = isPySpace := funext isPySpace_toLower
  rw [hp]

theorem stripChars_map_toLower (l : List Char) :
    stripChars (l.map Char.toLower) = (stripChars l).map Char.toLower := by
  rw [stripChars, stripChars, dropWhile_pySpace_map_toLower, ← List.map_reverse,
    dropWhile_pySpace_map_toLower, ← List.map_reverse]

theorem pyLower_pyStrip_congr (s1 s2 : String) (h : pyLower s1 = pyLower s2) :
    pyLower (pyStrip s1) = pyLower (pyStrip s2) := by
  have hd : s1.data.map Char.toLower = s2.data.map Char.toLower := by
    have := congrArg String.data h
    exact this
  show String.mk ((stripChars s1.data).map Char.toLower) =
    String.mk ((stripChars s2.data).map Char.toLower)
  rw [← stripChars_map_toLower, ← stripChars_map_toLower, hd]

mutual

/-- Lower every key of a value, at all nesting depths, leaving all leaf
values untouched.  Two documents are related by "differing only in the
casing of their keys" exactly when their deep key-lowerings coincide. -/
def lowerValDeep : Val → Val
  | .str s => .str s
  | .int n => .int n
  | .bool b => .bool b
  | .map m => .map (lowerEntriesDeep m)

def lowerEntriesDeep : List (String × Val) → List (String × Val)
  | [] => []
  | (k, v) :: rest => (pyLower k, lowerValDeep v) :: lowerEntriesDeep rest

end

theorem lowerEntriesDeep_cons (q : String × Val) (r : List (String × Val)) :
    lowerEntriesDeep (q :: r) = (pyLower q.1, lowerValDeep q.2) :: lowerEntriesDeep r := by
  cases q; rfl

theorem lkGet_rel (l1 l2 : List (String × Val)) (key : String)
    (h : lowerEntriesDeep l1 = lowerEntriesDeep l2) :
    (lkGet l1 key = none ∧ lkGet l2 key = none) ∨
    (∃ v w, lkGet l1 key = some v ∧ lkGet l2 key = some w ∧
      lowerValDeep v = lowerValDeep w) := by
  induction l1 generalizing l2 with
  | nil =>
    cases l2 with
    | nil => exact Or.inl ⟨rfl, rfl⟩
    | cons q r2 =>
      rw [show lowerEntriesDeep [] = [] from rfl, lowerEntriesDeep_cons] at h
      exact List.noConfusion h
  | cons p r1 ih =>
    cases l2 with
    | nil =>
      rw [show lowerEntriesDeep [] = [] from rfl, lowerEntriesDeep_cons] at h
      exact List.noConfusion h
    | cons q r2 =>
      rw [lowerEntriesDeep_cons, lowerEntriesDeep_cons] at h
      injection h with h1 h2
      have hk : pyLower p.1 = pyLower q.1 := congrArg Prod.fst h1
      have hv : lowerValDeep p.2 = lowerValDeep q.2 := congrArg Prod.snd h1
      rcases ih r2 h2 with ⟨hn1, hn2⟩ | ⟨v, w, hv1, hv2, hr⟩
      · rw [lkGet_cons, lkGet_cons, hn1, hn2]
        cases hc : pyLower p.1 == key with
        | false =>
          have hc2 : (pyLower q.1 == key) = false := by rw [← hk]; exact hc
          rw [hc2]
          exact Or.inl ⟨rfl, rfl⟩
        | true =>
          have hc2 : (pyLower q.1 == key) = true := by rw [← hk]; exact hc
          rw [hc2]
          exact Or.inr ⟨p.2, q.2, rfl, rfl, hv⟩
      · rw [lkGet_cons, lkGet_cons, hv1, hv2]
        exact Or.inr ⟨v, w, rfl, rfl, hr⟩

theorem sectionSlotVal_rel (v w : Val) (h : lowerValDeep v = lowerValDeep w) :
    (sectionSlotVal v = none ∧ sectionSlotVal w = none) ∨
    (∃ a b, sectionSlotVal v = some a ∧ sectionSlotVal w = some b ∧
      lowerValDeep a = lowerValDeep b) := by
  cases v with
  | str s => cases w with
    | str t => exact Or.inl ⟨rfl, rfl⟩
    | int n => exact Val.noConfusion h
    | bool b => exact Val.noConfusion h
    | map m => exact Val.noConfusion h
  | int n => cases w with
    | str t => exact Val.noConfusion h
    | int n2 => exact Or.inl ⟨rfl, rfl⟩
    | bool b => exact Val.noConfusion h
    | map m => exact Val.noConfusion h
  | bool b => cases w with
    | str t => exact Val.noConfusion h
    | int n => exact Val.noConfusion h
    | bool b2 => exact Or.inl ⟨rfl, rfl⟩
    | map m => exact Val.noConfusion h
  | map m => cases w with
    | str t => exact Val.noConfusion h
    | int n => exact Val.noConfusion h
    | bool b => exact Val.noConfusion h
    | map m2 =>
      simp only [lowerValDeep] at h
      injection h with h2
      exact lkGet_rel m m2 "activeslot" h2

theorem asStrField_rel (v w : Val) (h : lowerValDeep v = lowerValDeep w) :
    asStrField v = asStrField w := by
  cases v with
  | str s => cases w with
    | str t =>
      simp only [lowerValDeep] at h
      injection h with h2
      rw [h2]
    | int n => exact Val.noConfusion h
    | bool b => exact Val.noConfusion h
    | map m => exact Val.noConfusion h
  | int n => cases w with
    | str t => exact Val.noConfusion h
    | int n2 => rfl
    | bool b => exact Val.noConfusion h
    | map m => exact Val.noConfusion h
  | bool b => cases w with
    | str t => exact Val.noConfusion h
    | int n => exact Val.noConfusion h
    | bool b2 => rfl
    | map m => exact Val.noConfusion h
  | map m => cases w with
    | str t => exact Val.noConfusion h
    | int n => exact Val.noConfusion h
    | bool b => exact Val.noConfusion h
    | map m2 => rfl

mutual

theorem reprVal_rel : (v w : Val) → lowerValDeep v = lowerValDeep w →
    pyLower (reprVal v) = pyLower (reprVal w)
  | .str a, .str b, h => by
    simp only [lowerValDeep] at h
    injection h with h2
    rw [h2]
  | .str _, .int _, h => Val.noConfusion h
  | .str _, .bool _, h => Val.noConfusion h
  | .str _, .map _, h => Val.noConfusion h
  | .int _, .str _, h => Val.noConfusion h
  | .int a, .int b, h => by
    simp only [lowerValDeep] at h
    injection h with h2
    rw [h2]
  | .int _, .bool _, h => Val.noConfusion h
  | .int _, .map _, h => Val.noConfusion h
  | .bool _, .str _, h => Val.noConfusion h
  | .bool _, .int _, h => Val.noConfusion h
  | .bool a, .bool b, h => by
    simp only [lowerValDeep] at h
    injection h with h2
    rw [h2]
  | .bool _, .map _, h => Val.noConfusion h
  | .map _, .str _, h => Val.noConfusion h
  | .map _, .int _, h => Val.noConfusion h
  | .map _, .bool _, h => Val.noConfusion h
  | .map a, .map b, h => by
    simp only [lowerValDeep] at h
    injection h with h2
    show pyLower ("\x7b" ++ reprEntries a ++ "\x7d") =
      pyLower ("\x7b" ++ reprEntries b ++ "\x7d")
    rw [pyLower_append, pyLower_append, pyLower_append, pyLower_append,
      reprEntries_rel a b h2]

theorem reprEntries_rel : (l1 l2 : List (String × Val)) →
    lowerEntriesDeep l1 = lowerEntriesDeep l2 →
    pyLower (reprEntries l1) = pyLower (reprEntries l2)
  | [], [], _ => rfl
  | [], (_, _) :: _, h => List.noConfusion h
  | (_, _) :: _, [], h => List.noConfusion h
  | (k1, v1) :: r1, (k2, v2) :: r2, h => by
    simp only [lowerEntriesDeep] at h
    injection h with h1 h2
    have hk : pyLower k1 = pyLower k2 := congrArg Prod.fst h1
    have hv : lowerValDeep v1 = lowerValDeep v2 := congrArg Prod.snd h1
    have he : r1.isEmpty = r2.isEmpty := by
      cases r1 with
      | nil => cases r2 with
        | nil => rfl
        | cons q r =>
          rw [show lowerEntriesDeep ([] : List (String × Val)) = [] from rfl,
            lowerEntriesDeep_cons] at h2
          exact List.noConfusion h2
      | cons q r => cases r2 with
        | nil =>
          rw [show lowerEntriesDeep ([] : List (String × Val)) = [] from rfl,
            lowerEntriesDeep_cons] at h2
          exact List.noConfusion h2
        | cons q2 r2b => rfl
    have hL : reprEntries ((k1, v1) :: r1) =
        pyQuote ++ k1 ++ pyQuote ++ ": " ++ reprVal v1 ++
          (if r1.isEmpty then "" else ", ") ++ reprEntries r1 := rfl
    have hR : reprEntries ((k2, v2) :: r2) =
        pyQuote ++ k2 ++ pyQuote ++ ": " ++ reprVal v2 ++
          (if r2.isEmpty then "" else ", ") ++ reprEntries r2 := rfl
    rw [hL, hR]
    simp only [pyLower_append]
    rw [hk, he, reprVal_rel v1 v2 hv, reprEntries_rel r1 r2 h2]

end

theorem pyStr_rel (v w : Val) (h : lowerValDeep v = lowerValDeep w) :
    pyLower (pyStr v) = pyLower (pyStr w) := by
  cases v with
  | str s => cases w with
    | str t =>
      simp only [lowerValDeep] at h
      injection h with h2
      rw [h2]
    | int n => exact Val.noConfusion h
    | bool b => exact Val.noConfusion h
    | map m => exact Val.noConfusion h
  | int n => cases w with
    | str t => exact Val.noConfusion h
    | int n2 =>
      simp only [lowerValDeep] at h
      injection h with h2
      rw [h2]
    | bool b => exact Val.noConfusion h
    | map m => exact Val.noConfusion h
  | bool b => cases w with
    | str t => exact Val.noConfusion h
    | int n => exact Val.noConfusion h
    | bool b2 =>
      simp only [lowerValDeep] at h
      injection h with h2
      rw [h2]
    | map m => exact Val.noConfusion h
  | map m => cases w with
    | str t => exact Val.noConfusion h
    | int n => exact Val.noConfusion h
    | bool b => exact Val.noConfusion h
    | map m2 => exact reprVal_rel (.map m) (.map m2) h

/-- The `activeslot` value consulted by the detection for a given color,
going through the `lk.get(color, \x7b\x7d)` default. -/
def docSlotOpt (d : Doc) (c : String) : Option Val :=
  sectionSlotVal ((lkGet d c).getD (.map []))

theorem detect_eq_opt (d : Doc) :
    detect_active_slot d =
      match docSlotOpt d "blue" with
      | some v => asStrField v
      | none =>
        match docSlotOpt d "green" with
        | some v => asStrField v
        | none =>
          match lkGet d "activeslot" with
          | some v => .ok (pyLower (pyStrip (pyStr v)))
          | none => .ok "blue" := rfl

theorem docSlotOpt_rel (d1 d2 : Doc) (c : String)
    (h : lowerEntriesDeep d1 = lowerEntriesDeep d2) :
    (docSlotOpt d1 c = none ∧ docSlotOpt d2 c = none) ∨
    (∃ a b, docSlotOpt d1 c = some a ∧ docSlotOpt d2 c = some b ∧
      lowerValDeep a = lowerValDeep b) := by
  rcases lkGet_rel d1 d2 c h with ⟨h1, h2⟩ | ⟨v, w, h1, h2, hr⟩
  · rw [docSlotOpt, docSlotOpt, h1, h2]
    exact Or.inl ⟨rfl, rfl⟩
  · rw [docSlotOpt, docSlotOpt, h1, h2]
    exact sectionSlotVal_rel v w hr

theorem detect_key_case_insensitive (d1 d2 : Doc)
    (h : lowerEntriesDeep d1 = lowerEntriesDeep d2) :
    detect_active_slot d1 = detect_active_slot d2 := by
  rw [detect_eq_opt, detect_eq_opt]
  rcases docSlotOpt_rel d1 d2 "blue" h with ⟨hb1, hb2⟩ | ⟨a, b, hb1, hb2, hbr⟩
  · rw [hb1, hb2]
    rcases docSlotOpt_rel d1 d2 "green" h with ⟨hg1, hg2⟩ | ⟨a, b, hg1, hg2, hgr⟩
    · rw [hg1, hg2]
      rcases lkGet_rel d1 d2 "activeslot" h with ⟨ha1, ha2⟩ | ⟨v, w, ha1, ha2, har⟩
      · rw [ha1, ha2]
      · rw [ha1, ha2]
        have := pyLower_pyStrip_congr (pyStr v) (pyStr w) (pyStr_rel v w har)
        simp only [this]
    · rw [hg1, hg2]
      exact asStrField_rel a b hgr
  · rw [hb1, hb2]
    exact asStrField_rel a b hbr

/-- The section field read described by the spec: "<color> section's
activeslot field if present and a mapping". -/
def specSectionField (doc : Doc) (sec field : String) : Option Val :=
  match lkGet doc sec with
  | some (.map m) => lkGet m field
  | _ => none

/-- Reading of the spec sentence for `detectActiveSlot` (spec section
4.1): precedence blue section field, else green section field, else
root-level field, else the default "blue"; the looked-up value is
trimmed and lower-cased (failing, like the code, when a section-level
value is not a string). -/
def detectActiveSlotSpec (doc : Doc) : Except Unit String :=
  match specSectionField doc "blue" "activeslot" with
  | some v => asStrField v
  | none =>
    match specSectionField doc "green" "activeslot" with
    | some v => asStrField v
    | none =>
      match lkGet doc "activeslot" with
      | some v => .ok (pyLower (pyStrip (pyStr v)))
      | none => .ok "blue"

theorem docSlotOpt_eq_specSectionField (d : Doc) (c : String) :
    docSlotOpt d c = specSectionField d c "activeslot" := by
  rw [docSlotOpt, specSectionField]
  cases h : lkGet d c with
  | none => rfl
  | some v =>
    cases v with
    | str s => rfl
    | int n => rfl
    | bool b => rfl
    | map m => rfl

theorem detect_eq_spec (d : Doc) : detect_active_slot d = detectActiveSlotSpec d := by
  rw [detect_eq_opt, detectActiveSlotSpec,
    docSlotOpt_eq_specSectionField d "blue", docSlotOpt_eq_specSectionField d "green"]

/-- C8: detect_active_slot resolves the active slot with the spec's
precedence (blue section's activeslot if present and a mapping, else
green section's, else a root-level activeslot, else the default "blue"),
the returned value being the looked-up string trimmed and lower-cased;
and it is key-case-insensitive: two documents that agree after lowering
every key at every depth yield the same detected slot. -/
theorem detect_active_slot_spec_and_case_insensitive (doc d1 d2 : Doc) :
    detect_active_slot doc = detectActiveSlotSpec doc ∧
    (lowerEntriesDeep d1 = lowerEntriesDeep d2 →
      detect_active_slot d1 = detect_active_slot d2) :=
  ⟨detect_eq_spec doc, detect_key_case_insensitive d1 d2⟩

/-- C8 evaluated concretely: the spec reading agrees on the README
example, and two documents differing only in the casing of their keys
(including inside the sections) detect the same slot. -/
theorem detect_active_slot_spec_and_case_insensitive_witness :
    detect_active_slot [("Blue", Val.map [("ActiveSlot", Val.str "Green")])] =
      detectActiveSlotSpec [("Blue", Val.map [("ActiveSlot", Val.str "Green")])] ∧
    detect_active_slot [("Blue", Val.map [("ActiveSlot", Val.str "Green")])] =
      detect_active_slot [("blue", Val.map [("activeslot", Val.str "Green")])] := by
  have h := detect_active_slot_spec_and_case_insensitive
    [("Blue", Val.map [("ActiveSlot", Val.str "Green")])]
    [("Blue", Val.map [("ActiveSlot", Val.str "Green")])]
    [("blue", Val.map [("activeslot", Val.str "Green")])]
  exact ⟨h.1, h.2 (by decide)⟩

/-! Claim C4 machinery: the flip is an involution on well-formed documents. -/

theorem matchOpts_act_iff (k : String) :
    matchOpts ["activeslot", "ActiveSlot"] k = (pyLower k == "activeslot") := by
  have e1 : List.map pyLower ["activeslot", "ActiveSlot"] = ["activeslot", "activeslot"] := by
    decide
  rw [matchOpts_def, e1]
  cases hx : pyLower k == "activeslot" with
  | true => simp [List.contains_cons, hx, eq_of_beq hx]
  | false => simp [List.contains_cons, hx, ne_of_beq_false hx]

theorem matchOpts_w_iff (k : String) :
    matchOpts ["Weight", "weight"] k = (pyLower k == "weight") := by
  have e1 : List.map pyLower ["Weight", "weight"] = ["weight", "weight"] := by decide
  rw [matchOpts_def, e1]
  cases hx : pyLower k == "weight" with
  | true => simp [List.contains_cons, hx, eq_of_beq hx]
  | false => simp [List.contains_cons, hx, ne_of_beq_false hx]

theorem matchOpts_sb_iff (k : String) :
    matchOpts ["Standbyweight", "standbyweight", "Standybyweight", "standybyweight"] k =
      (pyLower k == "standbyweight" || pyLower k == "standybyweight") := by
  have e1 : List.map pyLower ["Standbyweight", "standbyweight", "Standybyweight",
      "standybyweight"] =
      ["standbyweight", "standbyweight", "standybyweight", "standybyweight"] := by decide
  rw [matchOpts_def, e1]
  cases hx : pyLower k == "standbyweight" with
  | true => simp [List.contains_cons, hx, eq_of_beq hx]
  | false =>
    cases hy : pyLower k == "standybyweight" with
    | true => simp [List.contains_cons, hx, hy, eq_of_beq hy]
    | false =>
      simp [List.contains_cons, hx, hy, ne_of_beq_false hx, ne_of_beq_false hy]

theorem w_not_act (k : String) (h : matchOpts ["Weight", "weight"] k = true) :
    matchOpts ["activeslot", "ActiveSlot"] k = false := by
  rw [matchOpts_w_iff] at h
  have hk : pyLower k = "weight" := eq_of_beq h
  rw [matchOpts_act_iff, hk]
  decide

theorem sb_not_act (k : String)
    (h : matchOpts ["Standbyweight", "standbyweight", "Standybyweight",
      "standybyweight"] k = true) :
    matchOpts ["activeslot", "ActiveSlot"] k = false := by
  rw [matchOpts_sb_iff] at h
  rw [matchOpts_act_iff]
  rcases Bool.or_eq_true_iff.mp h with h2 | h2 <;>
    rw [eq_of_beq h2] <;> decide

theorem sb_not_wM (k : String)
    (h : matchOpts ["Standbyweight", "standbyweight", "Standybyweight",
      "standybyweight"] k = true) :
    matchOpts ["Weight", "weight"] k = false := by
  rw [matchOpts_sb_iff] at h
  rw [matchOpts_w_iff]
  rcases Bool.or_eq_true_iff.mp h with h2 | h2 <;>
    rw [eq_of_beq h2] <;> decide

theorem lkGet_none_of_count_zero (m : List (String × Val)) (key : String)
    (h : m.countP (fun p => pyLower p.1 == key) = 0) :
    lkGet m key = none := by
  induction m with
  | nil => rfl
  | cons p r ih =>
    rw [List.countP_cons] at h
    cases hc : pyLower p.1 == key with
    | true => rw [hc] at h; simp at h
    | false =>
      have hr : r.countP (fun p => pyLower p.1 == key) = 0 := by
        rw [hc] at h; simpa using h
      rw [lkGet_cons, ih hr, hc]
      rfl

theorem lkGet_of_count_one_all (m : List (String × Val)) (key : String) (v : Val)
    (hc : m.countP (fun p => pyLower p.1 == key) = 1)
    (ha : m.all (fun p => !(pyLower p.1 == key) || p.2 == v) = true) :
    lkGet m key = some v := by
  induction m with
  | nil => simp at hc
  | cons p r ih =>
    rw [List.countP_cons] at hc
    rw [List.all_cons, Bool.and_eq_true] at ha
    cases hm : pyLower p.1 == key with
    | true =>
      have hr : r.countP (fun p => pyLower p.1 == key) = 0 := by
        rw [hm] at hc; simpa using hc
      rw [lkGet_cons, lkGet_none_of_count_zero r key hr, hm]
      have hv : p.2 = v := by
        have hx := ha.1
        rw [hm] at hx
        simpa using hx
      rw [hv]
      rfl
    | false =>
      have hr : r.countP (fun p => pyLower p.1 == key) = 1 := by
        rw [hm] at hc; simpa using hc
      rw [lkGet_cons, ih hr ha.2]

theorem countP_map_fst (m : List (String × Val)) (g : String × Val → String × Val)
    (q : String → Bool) (hg : ∀ p, (g p).1 = p.1) :
    (m.map g).countP (fun p => q p.1) = m.countP (fun p => q p.1) := by
  induction m with
  | nil => rfl
  | cons p r ih =>
    rw [List.map_cons, List.countP_cons, List.countP_cons, hg p, ih]

theorem any_map_fst (m : List (String × Val)) (g : String × Val → String × Val)
    (q : String → Bool) (hg : ∀ p, (g p).1 = p.1) :
    (m.map g).any (fun p => q p.1) = m.any (fun p => q p.1) := by
  induction m with
  | nil => rfl
  | cons p r ih =>
    rw [List.map_cons, List.any_cons, List.any_cons, hg p, ih]

theorem set_key_ci_all_written (m : List (String × Val)) (opts : List String) (v : Val)
    (hne : opts ≠ []) (hc : m.countP (fun p => matchOpts opts p.1) ≤ 1) :
    (set_key_ci m opts v).all (fun p => !(matchOpts opts p.1) || p.2 == v) = true := by
  rcases Nat.le_one_iff_eq_zero_or_eq_one.mp hc with h0 | h1
  · rw [set_key_ci_of_count_zero m opts v hne h0, List.all_append, Bool.and_eq_true]
    constructor
    · apply List.all_eq_true.mpr
      intro p hp
      have hp0 := List.countP_eq_zero.mp h0 p hp
      simp only [Bool.not_eq_true] at hp0
      simp [hp0]
    · simp
  · rw [set_key_ci_of_count_one m opts v h1]
    apply List.all_eq_true.mpr
    intro p hp
    rcases List.mem_map.mp hp with ⟨q, hq, hfq⟩
    cases hm : matchOpts opts q.1 with
    | true =>
      rw [hm] at hfq
      rw [if_pos rfl] at hfq
      rw [← hfq]
      simp [hm]
    | false =>
      rw [hm] at hfq
      rw [if_neg (by simp)] at hfq
      rw [← hfq]
      simp [hm]

theorem set_key_ci_all_frame (m : List (String × Val)) (opts : List String) (v : Val)
    (q : String × Val → Bool) (hne : opts ≠ [])
    (hq : ∀ k2, matchOpts opts k2 = true → ∀ w2, q (k2, w2) = true)
    (hall : m.all q = true) :
    (set_key_ci m opts v).all q = true := by
  rcases hsfm : setKeyFirstMatch m (opts.map pyLower) v with _ | d2
  · have hform := set_key_ci_of_all_false m opts v hne (sfm_none_all_false m opts v hsfm)
    rw [hform, List.all_append, hall]
    simp only [Bool.true_and]
    have hh := hq (opts.headD "") (matchOpts_head opts hne) v
    rw [List.headD_eq_head?_getD] at hh
    simp [hh]
  · have h1 : set_key_ci m opts v = d2 := by rw [set_key_ci, hsfm]
    rw [h1]
    clear h1
    induction m generalizing d2 with
    | nil => cases hsfm
    | cons p r ih =>
      rw [setKeyFirstMatch_cons] at hsfm
      rw [List.all_cons, Bool.and_eq_true] at hall
      cases hcp : (opts.map pyLower).contains (pyLower p.1) with
      | true =>
        rw [if_pos hcp] at hsfm
        cases hsfm
        rw [List.all_cons]
        have hqp := hq p.1 (by rw [matchOpts_def]; exact hcp) v
        rw [hqp, hall.2]
        rfl
      | false =>
        rw [if_neg (by rw [hcp]; simp)] at hsfm
        cases hs : setKeyFirstMatch r (opts.map pyLower) v with
        | none => rw [hs] at hsfm; exact Option.noConfusion hsfm
        | some r2 =>
          rw [hs] at hsfm
          have h2 : some (p :: r2) = some d2 := hsfm
          cases h2
          rw [List.all_cons, hall.1, ih hall.2 r2 hs]
          rfl

theorem map_eq_self_of_all {q : String × Val → Bool} (l : List (String × Val))
    (f : String × Val → String × Val) (hall : l.all q = true)
    (h : ∀ p, q p = true → f p = p) : l.map f = l := by
  induction l with
  | nil => rfl
  | cons p r ih =>
    rw [List.all_cons, Bool.and_eq_true] at hall
    rw [List.map_cons, h p hall.1, ih hall.2]

/-- Well-formedness of one blue/green section of color `secColor` (the
lowered section key) in a document whose active color is `a`: each of the
three flip-relevant fields is carried by exactly one (case-variant) key,
the activeslot value is the literal active color, and the weights satisfy
the active 100/0, standby 0/100 invariant. -/
def sectionWF (secColor a : String) (m : List (String × Val)) : Bool :=
  (m.countP (fun p => matchOpts ["activeslot", "ActiveSlot"] p.1) == 1) &&
  (m.countP (fun p => matchOpts ["Weight", "weight"] p.1) == 1) &&
  (m.countP (fun p => matchOpts ["Standbyweight", "standbyweight", "Standybyweight",
    "standybyweight"] p.1) == 1) &&
  m.all (fun p => !(matchOpts ["activeslot", "ActiveSlot"] p.1) || p.2 == Val.str a) &&
  m.all (fun p => !(matchOpts ["Weight", "weight"] p.1) ||
    p.2 == Val.int (if secColor == a then 100 else 0)) &&
  m.all (fun p => !(matchOpts ["Standbyweight", "standbyweight", "Standybyweight",
    "standybyweight"] p.1) || p.2 == Val.int (if secColor == a then 0 else 100))

/-- Well-formedness of one root entry: any entry whose key lowers to
blue/green must be stored under one of the four spellings the code
iterates, be a mapping, and satisfy `sectionWF`; other entries are
unconstrained. -/
def entryWF (a : String) (p : String × Val) : Bool :=
  if pyLower p.1 == "blue" || pyLower p.1 == "green" then
    (p.1 == "blue" || p.1 == "green" || p.1 == "Blue" || p.1 == "Green") &&
    (match p.2 with
     | Val.map m => sectionWF (pyLower p.1) a m
     | _ => false)
  else true

/-- Well-formedness of a document with active color `a`: the active color
is blue or green, a blue section and a green section are present, and
every blue/green root entry is a well-formed section. -/
def wellFormedB (doc : Doc) (a : String) : Bool :=
  (a == "blue" || a == "green") &&
  doc.any (fun p => pyLower p.1 == "blue") &&
  doc.any (fun p => pyLower p.1 == "green") &&
  doc.all (entryWF a)

theorem lkGet_some_of_any (doc : Doc) (c : String)
    (h : doc.any (fun p => pyLower p.1 == c) = true) :
    ∃ w, lkGet doc c = some w := by
  induction doc with
  | nil => simp at h
  | cons p r ih =>
    rw [List.any_cons, Bool.or_eq_true] at h
    rw [lkGet_cons]
    cases hr : lkGet r c with
    | some w => exact ⟨w, rfl⟩
    | none =>
      rcases h with h1 | h2
      · rw [h1]
        exact ⟨p.2, rfl⟩
      · rcases ih h2 with ⟨w, hw⟩
        rw [hw] at hr
        exact Option.noConfusion hr

theorem lkGet_wf_section (doc : Doc) (a c : String)
    (hcs : c = "blue" ∨ c = "green")
    (hall : doc.all (entryWF a) = true) :
    ∀ w, lkGet doc c = some w → ∃ m, w = Val.map m ∧ sectionWF c a m = true := by
  induction doc with
  | nil => intro w hw; exact Option.noConfusion hw
  | cons p r ih =>
    rw [List.all_cons, Bool.and_eq_true] at hall
    intro w hw
    rw [lkGet_cons] at hw
    cases hr : lkGet r c with
    | some w2 =>
      rw [hr] at hw
      have h2 : some w2 = some w := hw
      cases h2
      exact ih hall.2 w hr
    | none =>
      rw [hr] at hw
      cases hc : pyLower p.1 == c with
      | false =>
        rw [hc] at hw
        exact Option.noConfusion hw
      | true =>
        rw [hc] at hw
        have h2 : some p.2 = some w := hw
        cases h2
        have hiw := hall.1
        rw [entryWF] at hiw
        have hcond : (pyLower p.1 == "blue" || pyLower p.1 == "green") = true := by
          rcases hcs with h3 | h3 <;> rw [h3] at hc <;> simp [hc]
        rw [if_pos hcond, Bool.and_eq_true] at hiw
        cases hv : p.2 with
        | str s => rw [hv] at hiw; exact absurd hiw.2 (by simp)
        | int n => rw [hv] at hiw; exact absurd hiw.2 (by simp)
        | bool b => rw [hv] at hiw; exact absurd hiw.2 (by simp)
        | map m =>
          refine ⟨m, rfl, ?_⟩
          rw [hv] at hiw
          have := hiw.2
          rw [show pyLower p.1 = c from eq_of_beq hc] at this
          exact this

theorem detect_wf (doc : Doc) (a : String) (h : wellFormedB doc a = true) :
    detect_active_slot doc = .ok a := by
  rw [wellFormedB, Bool.and_eq_true, Bool.and_eq_true, Bool.and_eq_true] at h
  obtain ⟨⟨⟨hcol, hanyb⟩, hanyg⟩, hall⟩ := h
  obtain ⟨w, hw⟩ := lkGet_some_of_any doc "blue" hanyb
  obtain ⟨m, hwm, hwf⟩ := lkGet_wf_section doc a "blue" (Or.inl rfl) hall w hw
  subst hwm
  rw [sectionWF, Bool.and_eq_true, Bool.and_eq_true, Bool.and_eq_true, Bool.and_eq_true,
    Bool.and_eq_true] at hwf
  obtain ⟨⟨⟨⟨⟨hcAct, hcW⟩, hcSb⟩, haAct⟩, haW⟩, haSb⟩ := hwf
  have eact : (fun p : String × Val => matchOpts ["activeslot", "ActiveSlot"] p.1) =
      (fun p : String × Val => pyLower p.1 == "activeslot") :=
    funext (fun p => matchOpts_act_iff p.1)
  have hcount : m.countP (fun p => pyLower p.1 == "activeslot") = 1 := by
    rw [← eact]
    exact eq_of_beq hcAct
  have hallv : m.all (fun p => !(pyLower p.1 == "activeslot") || p.2 == Val.str a) = true := by
    rw [show (fun p : String × Val => !(pyLower p.1 == "activeslot") || p.2 == Val.str a) =
      (fun p : String × Val => !(matchOpts ["activeslot", "ActiveSlot"] p.1) ||
        p.2 == Val.str a) from funext (fun p => by rw [matchOpts_act_iff])]
    exact haAct
  have hact := lkGet_of_count_one_all m "activeslot" (Val.str a) hcount hallv
  have hopt : docSlotOpt doc "blue" = some (Val.str a) := by
    rw [docSlotOpt, hw]
    show sectionSlotVal (Val.map m) = some (Val.str a)
    rw [sectionSlotVal]
    exact hact
  rw [detect_eq_opt, hopt]
  show asStrField (Val.str a) = Except.ok a
  rw [asStrField]
  rcases Bool.or_eq_true_iff.mp hcol with h2 | h2 <;> rw [eq_of_beq h2] <;> decide

/-- The entrywise effect of `secFlip` on a section whose three
flip-relevant fields are each carried by exactly one key. -/
def secReplace (k slot : String) (p : String × Val) : String × Val :=
  if matchOpts ["activeslot", "ActiveSlot"] p.1 then (p.1, Val.str slot)
  else if matchOpts ["Weight", "weight"] p.1 then
    (p.1, Val.int (if pyLower k == pyLower slot then 100 else 0))
  else if matchOpts ["Standbyweight", "standbyweight", "Standybyweight",
      "standybyweight"] p.1 then
    (p.1, Val.int (if pyLower k == pyLower slot then 0 else 100))
  else p

theorem secReplace_fst (k slot : String) (p : String × Val) :
    (secReplace k slot p).1 = p.1 := by
  rw [secReplace]
  split
  · rfl
  split
  · rfl
  split
  · rfl
  · rfl

theorem secFlip_map (k slot : String) (m : List (String × Val))
    (hcAct : m.countP (fun p => matchOpts ["activeslot", "ActiveSlot"] p.1) = 1)
    (hcW : m.countP (fun p => matchOpts ["Weight", "weight"] p.1) = 1)
    (hcSb : m.countP (fun p => matchOpts ["Standbyweight", "standbyweight", "Standybyweight",
      "standybyweight"] p.1) = 1) :
    secFlip k slot m = m.map (secReplace k slot) := by
  have h1 : secFlip k slot m =
      set_key_ci
        (set_key_ci (set_key_ci m ["activeslot", "ActiveSlot"] (.str slot))
          ["Weight", "weight"]
          (.int (if pyLower k == pyLower slot then 100 else 0)))
        ["Standbyweight", "standbyweight", "Standybyweight", "standybyweight"]
        (.int (if pyLower k == pyLower slot then 0 else 100)) := rfl
  rw [h1, set_key_ci_of_count_one m ["activeslot", "ActiveSlot"] (.str slot) hcAct]
  have hfa : ∀ p : String × Val,
      ((fun p => if matchOpts ["activeslot", "ActiveSlot"] p.1 then (p.1, Val.str slot)
        else p) p).1 = p.1 := by
    intro p
    cases hm : matchOpts ["activeslot", "ActiveSlot"] p.1 <;> simp [hm]
  have hcW2 := countP_map_fst m _ (fun k2 => matchOpts ["Weight", "weight"] k2) hfa
  rw [hcW] at hcW2
  rw [set_key_ci_of_count_one _ ["Weight", "weight"] _ hcW2, List.map_map]
  have hfw : ∀ p : String × Val,
      (((fun p => if matchOpts ["Weight", "weight"] p.1 then
          (p.1, Val.int (if pyLower k == pyLower slot then 100 else 0)) else p) ∘
        (fun p => if matchOpts ["activeslot", "ActiveSlot"] p.1 then (p.1, Val.str slot)
          else p)) p).1 = p.1 := by
    intro p
    simp only [Function.comp]
    cases hm : matchOpts ["activeslot", "ActiveSlot"] p.1 <;>
      cases hw : matchOpts ["Weight", "weight"] p.1 <;> simp [hm, hw]
  have hcSb2 := countP_map_fst m _
    (fun k2 => matchOpts ["Standbyweight", "standbyweight", "Standybyweight",
      "standybyweight"] k2) hfw
  rw [hcSb] at hcSb2
  rw [set_key_ci_of_count_one _ _ _ hcSb2, List.map_map]
  have hfun : ∀ p : String × Val,
      ((fun p => if matchOpts ["Standbyweight", "standbyweight", "Standybyweight",
          "standybyweight"] p.1 then
          (p.1, Val.int (if pyLower k == pyLower slot then 0 else 100)) else p) ∘
        ((fun p => if matchOpts ["Weight", "weight"] p.1 then
          (p.1, Val.int (if pyLower k == pyLower slot then 100 else 0)) else p) ∘
        (fun p => if matchOpts ["activeslot", "ActiveSlot"] p.1 then (p.1, Val.str slot)
          else p))) p = secReplace k slot p := by
    intro p
    simp only [Function.comp]
    cases hm : matchOpts ["activeslot", "ActiveSlot"] p.1 with
    | true =>
      have hw := act_not_w p.1 hm
      have hsb := act_not_sb p.1 hm
      simp [secReplace, hm, hw, hsb]
    | false =>
      cases hw : matchOpts ["Weight", "weight"] p.1 with
      | true =>
        have hsb := w_not_sb p.1 hw
        simp [secReplace, hm, hw, hsb]
      | false =>
        cases hsb : matchOpts ["Standbyweight", "standbyweight", "Standybyweight",
            "standybyweight"] p.1 with
        | true => simp [secReplace, hm, hw, hsb]
        | false => simp [secReplace, hm, hw, hsb]
  exact congrArg (fun f => List.map f m) (funext hfun)

theorem all_and3 (m : List (String × Val)) (A B C : String × Val → Bool)
    (hA : m.all A = true) (hB : m.all B = true) (hC : m.all C = true) :
    m.all (fun p => A p && B p && C p) = true := by
  apply List.all_eq_true.mpr
  intro p hp
  rw [List.all_eq_true] at hA hB hC
  simp [hA p hp, hB p hp, hC p hp]

/-- On a well-formed section of the `a`-active document, flipping to `b` and
back to `a` restores the section exactly. -/
theorem secFlip_restore (k a b : String) (m : List (String × Val))
    (hpa : pyLower a = a)
    (hwf : sectionWF (pyLower k) a m = true) :
    secFlip k a (secFlip k b m) = m := by
  rw [sectionWF] at hwf
  simp only [Bool.and_eq_true] at hwf
  obtain ⟨⟨⟨⟨⟨hcAct0, hcW0⟩, hcSb0⟩, haAct⟩, haW⟩, haSb⟩ := hwf
  have hcAct := eq_of_beq hcAct0
  have hcW := eq_of_beq hcW0
  have hcSb := eq_of_beq hcSb0
  rw [secFlip_map k b m hcAct hcW hcSb]
  have hcAct2 := countP_map_fst m (secReplace k b)
    (fun k2 => matchOpts ["activeslot", "ActiveSlot"] k2) (secReplace_fst k b)
  have hcW2 := countP_map_fst m (secReplace k b)
    (fun k2 => matchOpts ["Weight", "weight"] k2) (secReplace_fst k b)
  have hcSb2 := countP_map_fst m (secReplace k b)
    (fun k2 => matchOpts ["Standbyweight", "standbyweight", "Standybyweight",
      "standybyweight"] k2) (secReplace_fst k b)
  rw [hcAct] at hcAct2
  rw [hcW] at hcW2
  rw [hcSb] at hcSb2
  rw [secFlip_map k a _ hcAct2 hcW2 hcSb2, List.map_map]
  apply map_eq_self_of_all _ _ (all_and3 m _ _ _ haAct haW haSb)
  intro p hp
  obtain ⟨k2, v2⟩ := p
  simp only [Bool.and_eq_true, Bool.or_eq_true, Bool.not_eq_true] at hp
  obtain ⟨⟨hpAct, hpW⟩, hpSb⟩ := hp
  show secReplace k a (secReplace k b (k2, v2)) = (k2, v2)
  cases hm : matchOpts ["activeslot", "ActiveSlot"] k2 with
  | true =>
    have hv : v2 = Val.str a := by
      cases hpAct with
      | inl h0 => rw [hm] at h0; exact absurd h0 (by decide)
      | inr h0 => exact eq_of_beq h0
    have hw := act_not_w k2 hm
    have hsb := act_not_sb k2 hm
    rw [hv]
    simp [secReplace, hm, hw, hsb]
  | false =>
    cases hw : matchOpts ["Weight", "weight"] k2 with
    | true =>
      have hv : v2 = Val.int (if pyLower k == a then 100 else 0) := by
        cases hpW with
        | inl h0 => rw [hw] at h0; exact absurd h0 (by decide)
        | inr h0 => exact eq_of_beq h0
      have hsb := w_not_sb k2 hw
      rw [hv]
      simp [secReplace, hm, hw, hsb, hpa]
    | false =>
      cases hsb : matchOpts ["Standbyweight", "standbyweight", "Standybyweight",
          "standybyweight"] k2 with
      | true =>
        have hv : v2 = Val.int (if pyLower k == a then 0 else 100) := by
          cases hpSb with
          | inl h0 => rw [hsb] at h0; exact absurd h0 (by decide)
          | inr h0 => exact eq_of_beq h0
        rw [hv]
        simp [secReplace, hm, hw, hsb, hpa]
      | false =>
        simp [secReplace, hm, hw, hsb]

theorem all_map_pt (l : List (String × Val)) (f : String × Val → String × Val)
    (q : String × Val → Bool) (h : ∀ x, q (f x) = true) :
    (l.map f).all q = true := by
  apply List.all_eq_true.mpr
  intro y hy
  obtain ⟨x, _, rfl⟩ := List.mem_map.mp hy
  exact h x

theorem all_map_mono (l : List (String × Val)) (f : String × Val → String × Val)
    (p q : String × Val → Bool) (hall : l.all p = true)
    (h : ∀ x, p x = true → q (f x) = true) : (l.map f).all q = true := by
  apply List.all_eq_true.mpr
  intro y hy
  obtain ⟨x, hx, rfl⟩ := List.mem_map.mp hy
  exact h x (List.all_eq_true.mp hall x hx)

/-- Flipping a well-formed section of the `a`-active document yields a
well-formed section of the `b`-active document. -/
theorem sectionWF_flip (k a b : String) (m : List (String × Val))
    (hpb : pyLower b = b)
    (hwf : sectionWF (pyLower k) a m = true) :
    sectionWF (pyLower k) b (secFlip k b m) = true := by
  rw [sectionWF] at hwf
  simp only [Bool.and_eq_true] at hwf
  obtain ⟨⟨⟨⟨⟨hcAct0, hcW0⟩, hcSb0⟩, h1⟩, h2⟩, h3⟩ := hwf
  have hcAct := eq_of_beq hcAct0
  have hcW := eq_of_beq hcW0
  have hcSb := eq_of_beq hcSb0
  rw [secFlip_map k b m hcAct hcW hcSb, sectionWF]
  simp only [Bool.and_eq_true]
  refine ⟨⟨⟨⟨⟨?_, ?_⟩, ?_⟩, ?_⟩, ?_⟩, ?_⟩
  · exact beq_iff_eq.mpr ((countP_map_fst m (secReplace k b)
      (fun k2 => matchOpts ["activeslot", "ActiveSlot"] k2)
      (secReplace_fst k b)).trans hcAct)
  · exact beq_iff_eq.mpr ((countP_map_fst m (secReplace k b)
      (fun k2 => matchOpts ["Weight", "weight"] k2)
      (secReplace_fst k b)).trans hcW)
  · exact beq_iff_eq.mpr ((countP_map_fst m (secReplace k b)
      (fun k2 => matchOpts ["Standbyweight", "standbyweight", "Standybyweight",
        "standybyweight"] k2)
      (secReplace_fst k b)).trans hcSb)
  · apply all_map_pt
    intro x
    obtain ⟨k2, v2⟩ := x
    cases hm : matchOpts ["activeslot", "ActiveSlot"] k2 with
    | true => simp [secReplace, hm]
    | false =>
      cases hw : matchOpts ["Weight", "weight"] k2 with
      | true => simp [secReplace, hm, hw]
      | false =>
        cases hsb : matchOpts ["Standbyweight", "standbyweight", "Standybyweight",
            "standybyweight"] k2 with
        | true => simp [secReplace, hm, hw, hsb]
        | false => simp [secReplace, hm, hw, hsb]
  · apply all_map_pt
    intro x
    obtain ⟨k2, v2⟩ := x
    cases hm : matchOpts ["activeslot", "ActiveSlot"] k2 with
    | true => simp [secReplace, hm, act_not_w k2 hm]
    | false =>
      cases hw : matchOpts ["Weight", "weight"] k2 with
      | true => simp [secReplace, hm, hw, hpb]
      | false =>
        cases hsb : matchOpts ["Standbyweight", "standbyweight", "Standybyweight",
            "standybyweight"] k2 with
        | true => simp [secReplace, hm, hw, hsb]
        | false => simp [secReplace, hm, hw, hsb]
  · apply all_map_pt
    intro x
    obtain ⟨k2, v2⟩ := x
    cases hm : matchOpts ["activeslot", "ActiveSlot"] k2 with
    | true => simp [secReplace, hm, act_not_sb k2 hm]
    | false =>
      cases hw : matchOpts ["Weight", "weight"] k2 with
      | true => simp [secReplace, hm, hw, w_not_sb k2 hw]
      | false =>
        cases hsb : matchOpts ["Standbyweight", "standbyweight", "Standybyweight",
            "standybyweight"] k2 with
        | true => simp [secReplace, hm, hw, hsb, hpb]
        | false => simp [secReplace, hm, hw, hsb]

theorem notSec_notFour (k : String)
    (hns : (pyLower k == "blue" || pyLower k == "green") = false) :
    (k == "blue" || k == "green" || k == "Blue" || k == "Green") = false := by
  cases h1 : k == "blue" with
  | true => rw [eq_of_beq h1] at hns; exact absurd hns (by decide)
  | false =>
    cases h2 : k == "green" with
    | true => rw [eq_of_beq h2] at hns; exact absurd hns (by decide)
    | false =>
      cases h3 : k == "Blue" with
      | true => rw [eq_of_beq h3] at hns; exact absurd hns (by decide)
      | false =>
        cases h4 : k == "Green" with
        | true => rw [eq_of_beq h4] at hns; exact absurd hns (by decide)
        | false => rfl

/-- Entry-level preservation of well-formedness under a flip to `b`. -/
theorem sabEntry_entryWF (a b : String) (hpb : pyLower b = b) (p : String × Val)
    (h : entryWF a p = true) : entryWF b (sabEntry b p) = true := by
  obtain ⟨k, v⟩ := p
  cases hns : (pyLower k == "blue" || pyLower k == "green") with
  | false =>
    have hf := notSec_notFour k hns
    cases v with
    | str s => simp [entryWF, sabEntry, hns]
    | int n => simp [entryWF, sabEntry, hns]
    | bool bb => simp [entryWF, sabEntry, hns]
    | map m =>
      have hsab : sabEntry b (k, Val.map m) = (k, Val.map m) := by
        show (if k == "blue" || k == "green" || k == "Blue" || k == "Green"
          then (k, Val.map (secFlip k b m)) else (k, Val.map m)) = (k, Val.map m)
        rw [if_neg (by rw [hf]; simp)]
      rw [hsab]
      simp [entryWF, hns]
  | true =>
    cases v with
    | str s => simp [entryWF, hns] at h
    | int n => simp [entryWF, hns] at h
    | bool bb => simp [entryWF, hns] at h
    | map m =>
      simp only [entryWF, hns] at h
      simp only [if_true, Bool.and_eq_true] at h
      obtain ⟨hfour, hswf⟩ := h
      have hsab : sabEntry b (k, Val.map m) = (k, Val.map (secFlip k b m)) := by
        show (if k == "blue" || k == "green" || k == "Blue" || k == "Green"
          then (k, Val.map (secFlip k b m)) else (k, Val.map m)) =
          (k, Val.map (secFlip k b m))
        rw [if_pos hfour]
      rw [hsab]
      have hswf2 := sectionWF_flip k a b m hpb hswf
      simp [entryWF, hns, hswf2, hfour]

/-- Flipping a well-formed `a`-active document yields a well-formed
document whose active color is the standby color. -/
theorem wellFormed_flip (doc : Doc) (a : String)
    (h : wellFormedB doc a = true) :
    wellFormedB (set_active_slot_both doc (standby_slot a)) (standby_slot a) = true := by
  rw [wellFormedB] at h
  simp only [Bool.and_eq_true] at h
  obtain ⟨⟨⟨hcol, hanyb⟩, hanyg⟩, hall⟩ := h
  rw [Bool.or_eq_true] at hcol
  have hb : (standby_slot a == "blue" || standby_slot a == "green") = true := by
    cases hcol with
    | inl h0 => rw [eq_of_beq h0]; decide
    | inr h0 => rw [eq_of_beq h0]; decide
  have hpb : pyLower (standby_slot a) = standby_slot a := by
    cases hcol with
    | inl h0 => rw [eq_of_beq h0]; decide
    | inr h0 => rw [eq_of_beq h0]; decide
  rw [set_active_slot_both_map, wellFormedB]
  simp only [Bool.and_eq_true]
  refine ⟨⟨⟨hb, ?_⟩, ?_⟩, ?_⟩
  · rw [any_map_fst doc (sabEntry (standby_slot a)) (fun k2 => pyLower k2 == "blue")
      (sabEntry_fst (standby_slot a))]
    exact hanyb
  · rw [any_map_fst doc (sabEntry (standby_slot a)) (fun k2 => pyLower k2 == "green")
      (sabEntry_fst (standby_slot a))]
    exact hanyg
  · exact all_map_mono doc (sabEntry (standby_slot a)) (entryWF a)
      (entryWF (standby_slot a)) hall
      (fun x hx => sabEntry_entryWF a (standby_slot a) hpb x hx)

/-- Two successive flips restore a well-formed document exactly. -/
theorem flip_flip_eq (doc : Doc) (a : String) (h : wellFormedB doc a = true) :
    set_active_slot_both (set_active_slot_both doc (standby_slot a)) a = doc := by
  rw [wellFormedB] at h
  simp only [Bool.and_eq_true] at h
  obtain ⟨⟨⟨hcol, _⟩, _⟩, hall⟩ := h
  rw [Bool.or_eq_true] at hcol
  have hpa : pyLower a = a := by
    cases hcol with
    | inl h0 => rw [eq_of_beq h0]; decide
    | inr h0 => rw [eq_of_beq h0]; decide
  rw [set_active_slot_both_map, set_active_slot_both_map, List.map_map]
  apply map_eq_self_of_all doc _ hall
  intro p hp
  obtain ⟨k, v⟩ := p
  simp only [Function.comp]
  cases hns : (pyLower k == "blue" || pyLower k == "green") with
  | false =>
    have hf := notSec_notFour k hns
    cases v with
    | str s => rfl
    | int n => rfl
    | bool bb => rfl
    | map m =>
      have h1 : sabEntry (standby_slot a) (k, Val.map m) = (k, Val.map m) := by
        show (if k == "blue" || k == "green" || k == "Blue" || k == "Green"
          then (k, Val.map (secFlip k (standby_slot a) m)) else (k, Val.map m)) =
          (k, Val.map m)
        rw [if_neg (by rw [hf]; simp)]
      rw [h1]
      show (if k == "blue" || k == "green" || k == "Blue" || k == "Green"
        then (k, Val.map (secFlip k a m)) else (k, Val.map m)) = (k, Val.map m)
      rw [if_neg (by rw [hf]; simp)]
  | true =>
    cases v with
    | str s => simp [entryWF, hns] at hp
    | int n => simp [entryWF, hns] at hp
    | bool bb => simp [entryWF, hns] at hp
    | map m =>
      simp only [entryWF, hns] at hp
      simp only [if_true, Bool.and_eq_true] at hp
      obtain ⟨hfour, hswf⟩ := hp
      have h1 : sabEntry (standby_slot a) (k, Val.map m) =
          (k, Val.map (secFlip k (standby_slot a) m)) := by
        show (if k == "blue" || k == "green" || k == "Blue" || k == "Green"
          then (k, Val.map (secFlip k (standby_slot a) m)) else (k, Val.map m)) =
          (k, Val.map (secFlip k (standby_slot a) m))
        rw [if_pos hfour]
      rw [h1]
      show (if k == "blue" || k == "green" || k == "Blue" || k == "Green"
        then (k, Val.map (secFlip k a (secFlip k (standby_slot a) m)))
        else (k, Val.map (secFlip k (standby_slot a) m))) = (k, Val.map m)
      rw [if_pos hfour, secFlip_restore k a (standby_slot a) m hpa hswf]

/-- A document satisfying the claim\x27s informal well-formedness reading
(blue and green sections present as mappings, all `activeslot` fields
agreeing on the active color blue, weights 100/0 on the active section
and 0/100 on the standby one) whose blue section carries two
case-variants of the activeslot key. -/
def c4cex : Doc :=
  [("blue", .map [("activeslot", .str "blue"), ("ActiveSlot", .str "blue"),
    ("weight", .int 100), ("standbyweight", .int 0)]),
   ("green", .map [("activeslot", .str "blue"), ("weight", .int 0),
    ("standbyweight", .int 100)])]

def c4d1 : Doc := set_active_slot_both c4cex "green"

def c4d2 : Doc := set_active_slot_both c4d1 "green"

/-- C4 is false as stated: `c4cex` has blue and green sections present as
mappings, every activeslot field (including the duplicate case-variant)
agreeing on the active color "blue", and the weight invariant holding
(active blue reads weight 100 / standbyweight 0, standby green reads
0 / 100); yet two applications of the flip produce a document whose blue
section reads weight 0 and activeslot "green", differing from the
original. The root cause: `_set_key_case_insensitive` overwrites the
FIRST case-insensitive match, while `_lower_keys` (used by
`detect_active_slot`) keeps the LAST one, so the second flip still
detects "blue" and flips to "green" again. -/
theorem flip_flip_not_inverse_on_duplicate_keys :
    ((lookupSection c4cex "blue").map (fun m => lkGet m "activeslot") =
        some (some (.str "blue")) ∧
      (lookupSection c4cex "blue").map (fun m => getExact m "ActiveSlot") =
        some (some (.str "blue")) ∧
      (lookupSection c4cex "green").map (fun m => lkGet m "activeslot") =
        some (some (.str "blue")) ∧
      (lookupSection c4cex "blue").map (fun m => lkGet m "weight") =
        some (some (.int 100)) ∧
      (lookupSection c4cex "blue").map (fun m => lkGet m "standbyweight") =
        some (some (.int 0)) ∧
      (lookupSection c4cex "green").map (fun m => lkGet m "weight") =
        some (some (.int 0)) ∧
      (lookupSection c4cex "green").map (fun m => lkGet m "standbyweight") =
        some (some (.int 100)) ∧
      detect_active_slot c4cex = .ok "blue") ∧
    flipActive c4cex = .ok c4d1 ∧
    flipActive c4d1 = .ok c4d2 ∧
    (lookupSection c4d2 "blue").map (fun m => lkGet m "weight") =
      some (some (.int 0)) ∧
    (lookupSection c4d2 "blue").map (fun m => getExact m "activeslot") =
      some (some (.str "green")) ∧
    (lookupSection c4d2 "blue").map (fun m => getExact m "ActiveSlot") =
      some (some (.str "blue")) := by
  decide

/-- C4 (amended): on documents that are well-formed in the stronger sense
of `wellFormedB` — the active color `a` is "blue" or "green", sections
whose key lowers to blue/green are stored under one of the four spellings
the code iterates, carry exactly ONE key from each of the activeslot,
weight and standbyweight case-variant families, and satisfy the
activeslot/weight invariants for `a` — the flip is an involution: two
applications restore the original document exactly (hence in particular
all activeslot, weight and standbyweight fields). -/
theorem flip_flip_identity_on_wellformed (doc : Doc) (a : String)
    (h : wellFormedB doc a = true) :
    ∃ d1, flipActive doc = .ok d1 ∧ flipActive d1 = .ok doc := by
  refine ⟨set_active_slot_both doc (standby_slot a), ?_, ?_⟩
  · rw [flipActive, detect_wf doc a h]
  · have h2 := wellFormed_flip doc a h
    rw [flipActive, detect_wf _ (standby_slot a) h2]
    have hcol : (a == "blue") = true ∨ (a == "green") = true := by
      rw [wellFormedB] at h2
      rw [wellFormedB] at h
      simp only [Bool.and_eq_true] at h
      exact Bool.or_eq_true _ _ |>.mp h.1.1.1
    have hss : standby_slot (standby_slot a) = a := by
      cases hcol with
      | inl h0 => rw [eq_of_beq h0]; decide
      | inr h0 => rw [eq_of_beq h0]; decide
    show Except.ok (set_active_slot_both (set_active_slot_both doc (standby_slot a))
      (standby_slot (standby_slot a))) = Except.ok doc
    rw [hss, flip_flip_eq doc a h]

def c4wf : Doc :=
  [("blue", .map [("activeslot", .str "blue"), ("weight", .int 100),
    ("standbyweight", .int 0)]),
   ("green", .map [("activeslot", .str "blue"), ("weight", .int 0),
    ("standbyweight", .int 100)])]

/-- Witness: the amended C4 theorem applies to a concrete well-formed
document. -/
theorem flip_flip_identity_on_wellformed_witness :
    wellFormedB c4wf "blue" = true ∧
    (∃ d1, flipActive c4wf = .ok d1 ∧ flipActive d1 = .ok c4wf) :=
  ⟨by decide, flip_flip_identity_on_wellformed c4wf "blue" (by decide)⟩

end BG
